import Mathlib

/-!
Verification development for the recursive kinematics/dynamics engine of
`src/multibody/multibody_tree/multibody_tree.cc` (class `MultibodyTree<T>`).

The tree-wide sweep drivers are translated from that source file.  The
per-node computations (class `BodyNode`, class `Mobilizer`, the spatial
algebra types) live outside the provided source; those parts are modelled
from the specification, and every such definition is marked
`Modelled from the spec`.  Scalars are exact rationals standing in for the
source's generic scalar type `T`.
-/

namespace Drake

/-- Rational 3-vectors, standing in for the source's Vector3 values. -/
abbrev V3 := Fin 3 → ℚ

/-- Index type of a spatial (six dimensional) quantity: an angular block
and a translational block of three components each. -/
abbrev S6 := Sum (Fin 3) (Fin 3)

/-- Spatial vectors (SpatialVelocity, SpatialAcceleration, SpatialForce). -/
abbrev SV := S6 → ℚ

/-- Six by six spatial matrices (spatial inertias and shift operators). -/
abbrev SM := Matrix S6 S6 ℚ

/-- Cross product of 3-vectors. -/
def cross3 (a b : V3) : V3 :=
  ![a 1 * b 2 - a 2 * b 1, a 2 * b 0 - a 0 * b 2, a 0 * b 1 - a 1 * b 0]

/-- Skew matrix of a 3-vector: `crossMat p *ᵥ x = cross3 p x`. -/
def crossMat (p : V3) : Matrix (Fin 3) (Fin 3) ℚ :=
  Matrix.of ![![0, -(p 2), p 1], ![p 2, 0, -(p 0)], ![-(p 1), p 0, 0]]

/-- Angular block of a spatial vector. -/
def angOf (x : SV) : V3 := fun i => x (Sum.inl i)

/-- Translational block of a spatial vector. -/
def linOf (x : SV) : V3 := fun i => x (Sum.inr i)

/-- Modelled from the spec: the linear part of the rigid shift of a spatial
motion quantity (velocity or acceleration) across the parent-to-body offset
`p`, at zero angular velocity.  Angular block is preserved and the
translational block picks up `alpha ×ₛ p = -(p ×ₛ alpha)`.
This stands in for `SpatialVelocity::Shift` / `SpatialAcceleration::Shift`,
which are external to the provided source file. -/
def phiA (p : V3) : SM := Matrix.fromBlocks 1 0 (-(crossMat p)) 1

/-- Modelled from the spec: the shift of a spatial force applied at a child
body origin to the parent body origin across the offset `p`.  The force
block is preserved and the torque block picks up `p ×ₛ f`.  It is the
transpose of `phiA p`, the duality used by the Newton-Euler balance. -/
def phiF (p : V3) : SM := Matrix.fromBlocks 1 (crossMat p) 0 1

/-- Blockwise cross action of an angular velocity on a spatial vector.
Used for the velocity-dependent bias terms; it vanishes at zero velocity. -/
def spatialCross (w : V3) (x : SV) : SV :=
  Sum.elim (cross3 w (angOf x)) (cross3 w (linOf x))

/-- Modelled from the spec: the gyroscopic (velocity dependent) spatial
force `V ×ₛ (M V)` appearing in the Newton-Euler balance; it vanishes when
the body's spatial velocity is zero. -/
def gyroF (v p : SV) : SV :=
  Sum.elim (cross3 (angOf v) (angOf p) + cross3 (linOf v) (linOf p))
    (cross3 (angOf v) (linOf p))

/-- Finalized tree topology as consumed (read-only) by the sweep drivers:
node count (`num_bodies()`), generalized-velocity count
(`num_velocities()`), parent node index, the contiguous velocity slice
`[vStart n, vStart n + mCount n)` of each node
(`mobilizer_velocities_start_in_v` / `num_mobilizer_velocities`), the tree
height (`tree_height()`) and the per-depth node lists
(`body_node_levels_`). -/
structure Topology where
  numBodies : ℕ
  nv : ℕ
  parent : ℕ → ℕ
  vStart : ℕ → ℕ
  mCount : ℕ → ℕ
  treeHeight : ℕ
  levels : List (List ℕ)

/-- Node processing order of the base-to-tip sweeps: depth 1 up to
`tree_height() - 1`, each depth's nodes in `body_node_levels_` order.
This is the loop structure of `CalcPositionKinematicsCache`,
`CalcVelocityKinematicsCache` and `CalcSpatialAccelerationsFromVdot`. -/
def Topology.sweepOrder (t : Topology) : List ℕ :=
  (((List.range t.treeHeight).drop 1).map (fun d => t.levels.getD d [])).flatten

/-- Node processing order of the tip-to-base inverse-dynamics sweep:
depth `tree_height() - 1` down to 0 (the world is processed last), each
depth's nodes in `body_node_levels_` order. -/
def Topology.idOrder (t : Topology) : List ℕ :=
  (((List.range t.treeHeight).reverse).map (fun d => t.levels.getD d [])).flatten

/-- Checks that a base-to-tip processing order is consistent: every node's
parent has already been processed (the world, node 0, counts as processed
from the start). -/
def okBT (par : ℕ → ℕ) : List ℕ → List ℕ → Bool
  | _, [] => true
  | done, n :: rest => decide (par n ∈ done) && okBT par (n :: done) rest

/-- Checks that a tip-to-base processing order is consistent for a tree
with `nn` nodes and parent map `par`: each processed node is a fresh valid
node all of whose children have already been processed. -/
def okTT (par : ℕ → ℕ) (nn : ℕ) : List ℕ → List ℕ → Bool
  | _, [] => true
  | done, n :: rest =>
      decide (n < nn) && decide (n ∉ done) &&
      decide (∀ c, c < nn → par c = n → 1 ≤ c → c ∈ done) &&
      okTT par nn (n :: done) rest

/-- Well-formedness of a finalized topology, as guaranteed by the external
topology builder: node 0 is the world; node indices are in breadth-first
order (each node's parent has a smaller index); the base-to-tip order
processes exactly the non-world nodes, parents first; the tip-to-base
order processes every node, children first; and the velocity slices of the
nodes partition `[0, nv)` in node order, the world owning an empty slice. -/
def Topology.WF (t : Topology) : Prop :=
  0 < t.numBodies ∧
  (∀ n, n < t.numBodies → 1 ≤ n → t.parent n < n) ∧
  (∀ n ∈ t.sweepOrder, 1 ≤ n ∧ n < t.numBodies) ∧
  (∀ n, n < t.numBodies → 1 ≤ n → n ∈ t.sweepOrder) ∧
  okBT t.parent [0] t.sweepOrder = true ∧
  (∀ n, n < t.numBodies → n ∈ t.idOrder) ∧
  okTT t.parent t.numBodies [] t.idOrder = true ∧
  t.vStart 0 = 0 ∧ t.mCount 0 = 0 ∧
  (∀ n, n < t.numBodies → n + 1 < t.numBodies →
    t.vStart (n + 1) = t.vStart n + t.mCount n) ∧
  t.vStart (t.numBodies - 1) + t.mCount (t.numBodies - 1) = t.nv

instance (t : Topology) : Decidable t.WF := by
  unfold Topology.WF
  exact inferInstance

/-- Rigid transform (`Isometry3<T>`): a rotation matrix and a
translation.  Composition, inversion (rotation transposed, as Eigen does
for isometries) and point action are the operations the source uses. -/
structure Iso where
  R : Matrix (Fin 3) (Fin 3) ℚ
  tr : V3
deriving DecidableEq

/-- Composition of rigid transforms. -/
def Iso.mul (x y : Iso) : Iso := ⟨x.R * y.R, x.R.mulVec y.tr + x.tr⟩

/-- Inverse of a rigid transform. -/
def Iso.inv (x : Iso) : Iso := ⟨x.R.transpose, -(x.R.transpose.mulVec x.tr)⟩

/-- Action of a rigid transform on a point. -/
def Iso.apply (x : Iso) (v : V3) : V3 := x.R.mulVec v + x.tr

/-- Identity rigid transform. -/
def isoId : Iso := ⟨1, 0⟩

/-- Position kinematics cache together with the position-dependent
per-node data produced by the external `BodyNode` / `Mobilizer` code and
consumed read-only by the sweep drivers of the source file.
Modelled from the spec: `p_PB_W n` is the world-expressed offset from the
parent body origin to body `n`'s origin; `H_PB_W n k` is the `k`-th column
(for `k < mCount n`) of the across-node Jacobian of node `n`; `M_B n` is
the world-expressed spatial inertia of body `n` about its node frame
origin; `X_WB n` is the world pose of body `n` stored in the cache. -/
structure PositionKinematicsCache where
  p_PB_W : ℕ → V3
  H_PB_W : ℕ → ℕ → SV
  M_B : ℕ → SM
  X_WB : ℕ → Iso

/-- Mobility contribution `H_PB_W ⬝ coeffs` of node `n`, where `coeffs` is
the global generalized-velocity or generalized-acceleration vector and the
node reads its own contiguous slice. -/
def mobility (t : Topology) (pc : PositionKinematicsCache) (coeffs : ℕ → ℚ)
    (n : ℕ) : SV :=
  ∑ k ∈ Finset.range (t.mCount n), coeffs (t.vStart n + k) • pc.H_PB_W n k

/-- Modelled from the spec: per-node velocity propagation
(`BodyNode::CalcVelocityKinematicsCache_BaseToTip`): this node's spatial
velocity is the parent's spatial velocity rigidly shifted to this node's
body origin plus the mobility-induced relative velocity, given the
parent's already computed spatial velocity `vp`. -/
def velNode (t : Topology) (pc : PositionKinematicsCache) (v : ℕ → ℚ)
    (n : ℕ) (vp : SV) : SV :=
  (phiA (pc.p_PB_W n)).mulVec vp + mobility t pc v n

/-- Modelled from the spec: per-node acceleration propagation
(`BodyNode::CalcSpatialAcceleration_BaseToTip`): the parent's acceleration
rigidly shifted (including the centrifugal bias of the shift at nonzero
angular velocity), plus the velocity-dependent bias from the time
derivative of `H_PB_W`, plus the mobility contribution `H_PB_W ⬝ vdot`.
All velocity-dependent terms vanish when the velocity cache is zero. -/
def accNode (t : Topology) (pc : PositionKinematicsCache) (vc : ℕ → SV)
    (vdot : ℕ → ℚ) (n : ℕ) (ap : SV) : SV :=
  (phiA (pc.p_PB_W n)).mulVec ap +
    Sum.elim (0 : V3) (cross3 (angOf (vc (t.parent n)))
      (cross3 (angOf (vc (t.parent n))) (pc.p_PB_W n))) +
    spatialCross (angOf (vc (t.parent n)))
      (vc n - (phiA (pc.p_PB_W n)).mulVec (vc (t.parent n))) +
    mobility t pc vdot n

/-- Modelled from the spec: per-node Newton-Euler force balance of the
tip-to-base recursion (`BodyNode::CalcInverseDynamics_TipToBase`): the net
spatial force the mobilizer must supply is the rate of change of momentum
`M_B ⬝ A_WB` plus the gyroscopic force, minus the externally applied
spatial force, plus the already accumulated children's reaction forces
`csum`.  The world node (index 0) is the terminal accumulator: its entry
is the total reaction of the bodies connected to it. -/
def idNodeForce (pc : PositionKinematicsCache) (vcn : SV) (an : SV)
    (fapp : SV) (csum : SV) (n : ℕ) : SV :=
  if n = 0 then csum
  else (pc.M_B n).mulVec an + gyroF vcn ((pc.M_B n).mulVec vcn) - fapp + csum

/-- Generic base-to-tip sweep over an order list: each processed node's
array entry is overwritten with a value computed from its parent's current
entry (this is the in-place update pattern of the source's depth loops). -/
def btSweep (par : ℕ → ℕ) (g : ℕ → SV → SV) (order : List ℕ)
    (a0 : ℕ → SV) : ℕ → SV :=
  order.foldl (fun a n => Function.update a n (g n (a (par n)))) a0

/-- Translated from `MultibodyTree<T>::CalcVelocityKinematicsCache`
(multibody_tree.cc:440-479): compute the across-node Jacobians, then
perform a base-to-tip recursion (skipping the world, whose entry stays at
the cache's zero initial value) computing body spatial velocities. -/
def CalcVelocityKinematicsCache (t : Topology)
    (pc : PositionKinematicsCache) (v : ℕ → ℚ) : ℕ → SV :=
  btSweep t.parent (velNode t pc v) t.sweepOrder (fun _ => 0)

/-- Context: the state as seen by this core, supplying the position
kinematics (a pure function of the generalized positions, computed by the
position sweep and memoized externally) and the generalized velocities. -/
structure Context where
  pc : PositionKinematicsCache
  v : ℕ → ℚ

/-- Memoized position kinematics of a context
(`MultibodyTree<T>::EvalPositionKinematics`). -/
def EvalPositionKinematics (ctx : Context) : PositionKinematicsCache :=
  ctx.pc

/-- Memoized velocity kinematics of a context
(`MultibodyTree<T>::EvalVelocityKinematics`). -/
def EvalVelocityKinematics (t : Topology) (ctx : Context) : ℕ → SV :=
  CalcVelocityKinematicsCache t ctx.pc ctx.v

/-- Translated from `MultibodyTree<T>::CalcSpatialAccelerationsFromVdot`
(multibody_tree.cc:481-516): set the world's entry of the caller's array
to zero, then perform a base-to-tip recursion (depth 1 up) computing body
spatial accelerations from the known generalized accelerations. -/
def CalcSpatialAccelerationsFromVdot (t : Topology)
    (pc : PositionKinematicsCache) (vc : ℕ → SV) (known_vdot : ℕ → ℚ)
    (A_WB_array : ℕ → SV) : ℕ → SV :=
  btSweep t.parent (accNode t pc vc known_vdot) t.sweepOrder
    (Function.update A_WB_array 0 0)

/-- State of the tip-to-base inverse-dynamics recursion: the spatial-force
array `F_BMo_W_array` and the generalized-force vector `tau_array`, both
caller-owned buffers updated in place. -/
structure IDState where
  F : ℕ → SV
  tau : ℕ → ℚ

/-- Children of node `n`: the non-world nodes whose parent is `n`. -/
def childs (t : Topology) (n : ℕ) : Finset ℕ :=
  (Finset.range t.numBodies).filter (fun c => t.parent c = n ∧ 1 ≤ c)

/-- One iteration of the tip-to-base loop of
`MultibodyTree<T>::CalcInverseDynamics` (multibody_tree.cc:601-631) at
node `n`.  The applied spatial force and applied generalized forces for
this node are read (copied) through `readF` / `readT` BEFORE this node's
output entries are overwritten, which is what lets callers pass the same
array as input and output.  The node's spatial force is accumulated from
its children's entries and its output slice of `tau` is the projection
through the transposed across-node Jacobian, minus the applied
generalized force of the slice. -/
def idStep (t : Topology) (pc : PositionKinematicsCache) (vc : ℕ → SV)
    (a : ℕ → SV) (readF : IDState → ℕ → SV) (readT : IDState → ℕ → ℚ)
    (s : IDState) (n : ℕ) : IDState :=
  let fapp := readF s n
  let csum := ∑ c ∈ childs t n, (phiF (pc.p_PB_W c)).mulVec (s.F c)
  let fb := idNodeForce pc (vc n) (a n) fapp csum n
  { F := Function.update s.F n fb
    tau := fun i =>
      if t.vStart n ≤ i ∧ i < t.vStart n + t.mCount n then
        Matrix.dotProduct (pc.H_PB_W n (i - t.vStart n)) fb - readT s i
      else s.tau i }

/-- Tip-to-base sweep over the tree's inverse-dynamics order. -/
def idSweep (t : Topology) (pc : PositionKinematicsCache) (vc : ℕ → SV)
    (a : ℕ → SV) (readF : IDState → ℕ → SV) (readT : IDState → ℕ → ℚ)
    (s0 : IDState) : IDState :=
  t.idOrder.foldl (idStep t pc vc a readF readT) s0

/-- Result triple of an inverse-dynamics evaluation: the three caller
buffers after the call. -/
structure IDResult where
  A : ℕ → SV
  F : ℕ → SV
  tau : ℕ → ℚ

/-- Translated from the nine-argument overload
`MultibodyTree<T>::CalcInverseDynamics` (multibody_tree.cc:555-632).
First the spatial accelerations are computed into the caller's
`A_WB_array` buffer from the known generalized accelerations; then the
tip-to-base recursion fills `F_BMo_W_array` and `tau_array`.
`Fapplied_Bo_W_array` and `tau_applied_array` model the optional applied
force arrays: `none` stands for a size-zero array, in which case the
per-node applied contributions stay zero.  `A0`, `F0`, `tau0` are the
contents of the caller's output buffers on entry. -/
def CalcInverseDynamics (t : Topology) (pc : PositionKinematicsCache)
    (vc : ℕ → SV) (known_vdot : ℕ → ℚ)
    (Fapplied_Bo_W_array : Option (ℕ → SV))
    (tau_applied_array : Option (ℕ → ℚ))
    (A0 F0 : ℕ → SV) (tau0 : ℕ → ℚ) : IDResult :=
  let a := CalcSpatialAccelerationsFromVdot t pc vc known_vdot A0
  let s := idSweep t pc vc a
    (fun _ n => match Fapplied_Bo_W_array with
      | some f => f n
      | none => 0)
    (fun _ i => match tau_applied_array with
      | some g => g i
      | none => 0)
    ⟨F0, tau0⟩
  ⟨a, s.F, s.tau⟩

/-- Semantics of the same call when the caller passes the applied-force
arrays as the very same array objects used for output (`aliasF` aliases
`Fapplied_Bo_W_array` with `F_BMo_W_array`, `aliasT` aliases
`tau_applied_array` with `tau_array`).  An aliased applied array is then
read through the current state of the output buffer, and the output
buffer's initial contents ARE the applied values. -/
def CalcInverseDynamicsAliased (t : Topology)
    (pc : PositionKinematicsCache) (vc : ℕ → SV) (known_vdot : ℕ → ℚ)
    (aliasF aliasT : Bool) (Fapp : ℕ → SV) (tauApp : ℕ → ℚ)
    (A0 F0 : ℕ → SV) (tau0 : ℕ → ℚ) : IDResult :=
  let a := CalcSpatialAccelerationsFromVdot t pc vc known_vdot A0
  let s := idSweep t pc vc a
    (fun s n => if aliasF then s.F n else Fapp n)
    (fun s i => if aliasT then s.tau i else tauApp i)
    ⟨(if aliasF then Fapp else F0), (if aliasT then tauApp else tau0)⟩
  ⟨a, s.F, s.tau⟩

/-- State threaded through the mass-matrix probe loop: the two auxiliary
arrays reused across probes and the output matrix. -/
structure MassState where
  A : ℕ → SV
  F : ℕ → SV
  H : ℕ → ℕ → ℚ

/-- One iteration of the probe loop of
`MultibodyTree<T>::DoCalcMassMatrixViaInverseDynamics`
(multibody_tree.cc:735-741): set `vdot` to the `j`-th unit basis vector,
zero the `tau` buffer, run inverse dynamics with the zero velocity cache
and no applied forces, and store the resulting generalized-force vector
as column `j` of the output matrix. -/
def massProbeStep (t : Topology) (pc : PositionKinematicsCache)
    (st : MassState) (j : ℕ) : MassState :=
  let vdot : ℕ → ℚ := fun i => if i = j then 1 else 0
  let r := CalcInverseDynamics t pc (fun _ => 0) vdot none none
    st.A st.F (fun _ => 0)
  { A := r.A, F := r.F,
    H := fun i jc => if jc = j ∧ i < t.nv then r.tau i else st.H i jc }

/-- Probe loop over an arbitrary column order (study definition used to
state probe-order independence). -/
def DoCalcMassMatrixInOrder (t : Topology) (pc : PositionKinematicsCache)
    (A0 F0 : ℕ → SV) (H0 : ℕ → ℕ → ℚ) (order : List ℕ) : ℕ → ℕ → ℚ :=
  (order.foldl (massProbeStep t pc) ⟨A0, F0, H0⟩).H

/-- Translated from
`MultibodyTree<T>::DoCalcMassMatrixViaInverseDynamics`
(multibody_tree.cc:717-742): a zero-initialized velocity cache, then one
unit-impulse inverse-dynamics probe per column `j = 0 .. nv - 1`, reusing
the auxiliary arrays across probes.  `A0`, `F0` model the unspecified
initial contents of the default-constructed auxiliary arrays and `H0` the
caller's matrix buffer. -/
def DoCalcMassMatrixViaInverseDynamics (t : Topology)
    (pc : PositionKinematicsCache) (A0 F0 : ℕ → SV)
    (H0 : ℕ → ℕ → ℚ) : ℕ → ℕ → ℚ :=
  DoCalcMassMatrixInOrder t pc A0 F0 H0 (List.range t.nv)

/-- Translated from `MultibodyTree<T>::DoCalcBiasTerm`
(multibody_tree.cc:765-781): a single inverse-dynamics evaluation with the
generalized accelerations held at zero and no applied forces, writing the
generalized-force result into the caller's `Cv` buffer.  `A0`, `F0` model
the unspecified initial contents of the local auxiliary arrays. -/
def DoCalcBiasTerm (t : Topology) (pc : PositionKinematicsCache)
    (vc : ℕ → SV) (A0 F0 : ℕ → SV) (Cv0 : ℕ → ℚ) : ℕ → ℚ :=
  (CalcInverseDynamics t pc vc (fun _ => 0) none none A0 F0 Cv0).tau

/-- Translated from `MultibodyTree<T>::CalcBiasTerm`
(multibody_tree.cc:744-753): evaluate the position and velocity
kinematics of the context and delegate to `DoCalcBiasTerm`. -/
def CalcBiasTerm (t : Topology) (ctx : Context) (A0 F0 : ℕ → SV)
    (Cv0 : ℕ → ℚ) : ℕ → ℚ :=
  DoCalcBiasTerm t (EvalPositionKinematics ctx)
    (EvalVelocityKinematics t ctx) A0 F0 Cv0

/-- Applied forces object (`MultibodyForces<T>`): a per-body spatial force
array and a generalized-force vector. -/
structure MultibodyForces where
  body_forces : ℕ → SV
  generalized_forces : ℕ → ℚ

/-- Translated from the three-argument overload
`MultibodyTree<T>::CalcInverseDynamics` (multibody_tree.cc:537-553):
allocate temporary storage, evaluate the kinematics caches and run the
nine-argument overload on the forces' arrays, returning the
generalized-force vector.  `A0`, `F0`, `tau0` model the unspecified
initial contents of the local temporaries. -/
def CalcInverseDynamicsTau (t : Topology) (ctx : Context)
    (known_vdot : ℕ → ℚ) (external_forces : MultibodyForces)
    (A0 F0 : ℕ → SV) (tau0 : ℕ → ℚ) : ℕ → ℚ :=
  (CalcInverseDynamics t (EvalPositionKinematics ctx)
    (EvalVelocityKinematics t ctx) known_vdot
    (some external_forces.body_forces)
    (some external_forces.generalized_forces) A0 F0 tau0).tau

/-- Error classes of the source's precondition checks: `fatalAssertion`
models a failed `DRAKE_DEMAND` (an abort, not catchable), and
`catchableException` models a thrown C++ exception
(`DRAKE_THROW_UNLESS`, `throw std::logic_error`, ...), which a caller can
catch. -/
inductive Err where
  | fatalAssertion : Err
  | catchableException : Err
deriving DecidableEq

/-- Frame attached to a body (`Frame<T>`), modelled from the spec as an
external collaborator: the body it is attached to and its fixed pose in
the body frame (`CalcPoseInBodyFrame` / `GetFixedPoseInBodyFrame`). -/
structure Frame where
  body : ℕ
  X_BF : Iso

/-- Whole-model data beyond the topology: the finalized flag
(`topology_is_valid()`), the optional gravity force element
(`gravity_field_`, with its externally implemented
`CalcGravityGeneralizedForces`), and the body-index-to-node-index map
(`get_body(i).node_index()`). -/
structure MultibodyTreeModel where
  top : Topology
  finalized : Bool
  gravity_field : Option (Context → List ℚ)
  bodyNode : ℕ → ℕ

/-- World frame of a model: attached to body 0 with identity pose. -/
def worldFrame : Frame := ⟨0, isoId⟩

/-- Dense matrix buffer with run-time size, standing in for the source's
`MatrixX<T>` objects and `EigenPtr` output arguments. -/
structure MatB where
  rows : ℕ
  cols : ℕ
  get : ℕ → ℕ → ℚ

/-- Column `j` of a matrix buffer as a 3-vector (rows 0..2). -/
def colOf (b : MatB) (j : ℕ) : V3 := fun r => b.get r.val j

/-- Translated from `MultibodyTree<T>::CalcRelativeTransform`
(multibody_tree.cc:783-795): `X_AB = X_WA⁻¹ * X_WB` with each world pose
composed from the cached body pose and the frame's pose in its body. -/
def CalcRelativeTransform (m : MultibodyTreeModel) (ctx : Context)
    (frame_A frame_B : Frame) : Iso :=
  let pc := EvalPositionKinematics ctx
  let x_WA := (pc.X_WB (m.bodyNode frame_A.body)).mul frame_A.X_BF
  let x_WB := (pc.X_WB (m.bodyNode frame_B.body)).mul frame_B.X_BF
  x_WA.inv.mul x_WB

/-- Translated from `MultibodyTree<T>::CalcPointsPositions`
(multibody_tree.cc:797-813).  All four precondition checks are
`DRAKE_THROW_UNLESS`, i.e. thrown exceptions: the input point matrix must
have three rows, the output pointer must be non-null with three rows and
the same number of columns.  On success the output holds the points
transformed by `X_AB`. -/
def CalcPointsPositions (m : MultibodyTreeModel) (ctx : Context)
    (frame_B : Frame) (p_BQi : MatB) (frame_A : Frame)
    (p_AQi : Option MatB) : Except Err MatB :=
  if p_BQi.rows ≠ 3 then .error .catchableException
  else match p_AQi with
    | none => .error .catchableException
    | some out =>
      if out.rows ≠ 3 then .error .catchableException
      else if out.cols ≠ p_BQi.cols then .error .catchableException
      else
        let x_AB := CalcRelativeTransform m ctx frame_A frame_B
        .ok { rows := out.rows, cols := out.cols,
              get := fun i j =>
                if h : i < 3 ∧ j < p_BQi.cols then
                  (x_AB.apply (colOf p_BQi j)) ⟨i, h.1⟩
                else out.get i j }

/-- Modelled from the spec: the topology's kinematic-path-to-world query
(`MultibodyTreeTopology::GetKinematicPathToWorld`), realized by following
the parent map; the returned list starts at the world and ends at the
queried node. -/
def pathAux (par : ℕ → ℕ) : ℕ → ℕ → List ℕ
  | 0, b => [b]
  | fuel + 1, b => if b = 0 then [0] else pathAux par fuel (par b) ++ [b]

/-- Kinematic path from the world to node `b`. -/
def pathToWorld (t : Topology) (b : ℕ) : List ℕ := pathAux t.parent b b

/-- Component `i % 3` of a 3-vector, for flattened row indexing. -/
def v3get (v : V3) (i : ℕ) : ℚ := v ⟨i % 3, Nat.mod_lt _ (by norm_num)⟩

/-- Per-path-node block writes of
`MultibodyTree<T>::CalcFrameJacobianExpressedInWorld`
(multibody_tree.cc:1096-1156): the angular Jacobian block of the node's
velocity slice is the angular rows of `H_PB_W`; the translational block
for each point `Qi` is the translational rows of `H_PB_W` shifted by the
columnwise cross product with the body-origin-to-point offset. -/
def frameJacStep (t : Topology) (pc : PositionKinematicsCache)
    (p_WQ_list : MatB) (st : Option MatB × Option MatB) (n : ℕ) :
    Option MatB × Option MatB :=
  let start := t.vStart n
  let mcn := t.mCount n
  let np := p_WQ_list.cols
  let jw := st.1.map (fun b =>
    { b with get := fun i j =>
        if h : i < 3 ∧ start ≤ j ∧ j < start + mcn then
          angOf (pc.H_PB_W n (j - start)) ⟨i, h.1⟩
        else b.get i j })
  let jv := st.2.map (fun b =>
    { b with get := fun i j =>
        if start ≤ j ∧ j < start + mcn ∧ i < 3 * np then
          v3get (linOf (pc.H_PB_W n (j - start)) +
            cross3 (angOf (pc.H_PB_W n (j - start)))
              (colOf p_WQ_list (i / 3) - (pc.X_WB n).tr)) i
        else b.get i j })
  (jw, jv)

/-- Translated from
`MultibodyTree<T>::CalcFrameJacobianExpressedInWorld`
(multibody_tree.cc:1050-1157).  At least one of the two output Jacobians
must be requested and the requested ones must have matching sizes (all
checks are thrown exceptions); both are zeroed, bodies anchored to the
world get zero Jacobians, and otherwise each node on the kinematic path
from the body to the world contributes the blocks of its velocity
slice. -/
def CalcFrameJacobianExpressedInWorld (m : MultibodyTreeModel)
    (ctx : Context) (frame_F : Frame) (p_WQ_list : MatB)
    (Jw_WFq Jv_WFq : Option MatB) :
    Except Err (Option MatB × Option MatB) :=
  match Jw_WFq, Jv_WFq with
  | none, none => .error .catchableException
  | jw, jv =>
    let np := p_WQ_list.cols
    if ∃ b ∈ jw, ¬(b.rows = 3 ∧ b.cols = m.top.nv) then
      .error .catchableException
    else if ∃ b ∈ jv, ¬(b.rows = 3 * np ∧ b.cols = m.top.nv) then
      .error .catchableException
    else
      let jw0 := jw.map (fun b => { b with get := fun _ _ => 0 })
      let jv0 := jv.map (fun b => { b with get := fun _ _ => 0 })
      if frame_F.body = 0 then .ok (jw0, jv0)
      else
        let pc := EvalPositionKinematics ctx
        let path := pathToWorld m.top (m.bodyNode frame_F.body)
        .ok ((path.drop 1).foldl (frameJacStep m.top pc p_WQ_list)
          (jw0, jv0))

/-- Translated from the `p_WQ_list` overload of
`MultibodyTree<T>::CalcPointsGeometricJacobianExpressedInWorld`
(multibody_tree.cc:955-968): size checks (thrown exceptions) and a
delegation to the frame-Jacobian computation with no angular output. -/
def CalcPointsGeometricJacobianWorldPoints (m : MultibodyTreeModel)
    (ctx : Context) (frame_F : Frame) (p_WQ_list : MatB)
    (Jv_WFq : Option MatB) : Except Err MatB :=
  if p_WQ_list.rows ≠ 3 then .error .catchableException
  else
    let np := p_WQ_list.cols
    match Jv_WFq with
    | none => .error .catchableException
    | some jv =>
      if jv.rows ≠ 3 * np then .error .catchableException
      else if jv.cols ≠ m.top.nv then .error .catchableException
      else
        match CalcFrameJacobianExpressedInWorld m ctx frame_F p_WQ_list
          none (some jv) with
        | .error e => .error e
        | .ok st => .ok (st.2.getD jv)

/-- Translated from the body-frame-points overload of
`MultibodyTree<T>::CalcPointsGeometricJacobianExpressedInWorld`
(multibody_tree.cc:862-882): size and null checks (thrown exceptions),
then the points are transformed to world coordinates with
`CalcPointsPositions` and the world-points overload computes the
Jacobian. -/
def CalcPointsGeometricJacobianExpressedInWorld (m : MultibodyTreeModel)
    (ctx : Context) (frame_B : Frame) (p_BQi_set : MatB)
    (p_WQi_set Jv_WQi : Option MatB) : Except Err (MatB × MatB) :=
  if p_BQi_set.rows ≠ 3 then .error .catchableException
  else
    let np := p_BQi_set.cols
    match p_WQi_set with
    | none => .error .catchableException
    | some pw =>
      if pw.cols ≠ np then .error .catchableException
      else match Jv_WQi with
        | none => .error .catchableException
        | some jv =>
          if jv.rows ≠ 3 * np then .error .catchableException
          else if jv.cols ≠ m.top.nv then .error .catchableException
          else
            match CalcPointsPositions m ctx frame_B p_BQi_set worldFrame
              (some pw) with
            | .error e => .error e
            | .ok pwFilled =>
              match CalcPointsGeometricJacobianWorldPoints m ctx frame_B
                pwFilled (some jv) with
              | .error e => .error e
              | .ok jvFilled => .ok (pwFilled, jvFilled)

/-- The resize step of `std::vector<T>::resize(n, value)`: truncate or pad
with the given default so the length becomes `n`. -/
def resizeList {α : Type} (l : List α) (n : ℕ) (pad : α) : List α :=
  l.take n ++ List.replicate (n - l.length) pad

/-- Translated from `MultibodyTree<T>::CalcAllBodyPosesInWorld`
(multibody_tree.cc:379-392): a null output vector is a thrown exception;
a vector of the wrong size is resized to the number of bodies (padding
with identity poses), and every entry is then filled from the position
kinematics cache in ascending body-index order. -/
def CalcAllBodyPosesInWorld (m : MultibodyTreeModel) (ctx : Context)
    (X_WB : Option (List Iso)) : Except Err (List Iso) :=
  match X_WB with
  | none => .error .catchableException
  | some buf =>
    let buf1 := if buf.length ≠ m.top.numBodies then
        resizeList buf m.top.numBodies isoId
      else buf
    let pc := EvalPositionKinematics ctx
    .ok ((List.range m.top.numBodies).foldl
      (fun l b => l.set b (pc.X_WB (m.bodyNode b))) buf1)

/-- Translated from `MultibodyTree<T>::CalcAllBodySpatialVelocitiesInWorld`
(multibody_tree.cc:394-407): same shape as the poses variant, filling
spatial velocities from the velocity kinematics cache (padding with zero
spatial velocities on resize). -/
def CalcAllBodySpatialVelocitiesInWorld (m : MultibodyTreeModel)
    (ctx : Context) (V_WB : Option (List SV)) : Except Err (List SV) :=
  match V_WB with
  | none => .error .catchableException
  | some buf =>
    let buf1 := if buf.length ≠ m.top.numBodies then
        resizeList buf m.top.numBodies 0
      else buf
    let vc := EvalVelocityKinematics m.top ctx
    .ok ((List.range m.top.numBodies).foldl
      (fun l b => l.set b (vc (m.bodyNode b))) buf1)

/-- Translated from `MultibodyTree<T>::CalcGravityGeneralizedForces`
(multibody_tree.cc:755-763): calling before finalization is a thrown
(catchable) exception; with a registered gravity field the computation is
delegated to it; otherwise the zero vector of length `num_velocities()`
is returned. -/
def CalcGravityGeneralizedForces (m : MultibodyTreeModel)
    (ctx : Context) : Except Err (List ℚ) :=
  if m.finalized = false then .error .catchableException
  else match m.gravity_field with
    | some g => .ok (g ctx)
    | none => .ok (List.replicate m.top.nv 0)

/-- Precondition layer of the nine-argument
`MultibodyTree<T>::CalcInverseDynamics` (multibody_tree.cc:566-579): all
the size and null checks are `DRAKE_DEMAND`s, i.e. fatal assertions.  The
sized arguments model the `std::vector` / `VectorX` objects whose sizes
the checks query; a `none` buffer models a null output pointer.  On
success the unchecked computation runs on the buffers' contents. -/
def CalcInverseDynamicsChecked (t : Topology)
    (pc : PositionKinematicsCache) (vc : ℕ → SV) (known_vdot : List ℚ)
    (Fapplied_Bo_W_array : List SV) (tau_applied_array : List ℚ)
    (A_WB_array F_BMo_W_array : Option (List SV))
    (tau_array : List ℚ) : Except Err IDResult :=
  if known_vdot.length ≠ t.nv then .error .fatalAssertion
  else if ¬(Fapplied_Bo_W_array.length = t.numBodies ∨
      Fapplied_Bo_W_array.length = 0) then .error .fatalAssertion
  else if ¬(tau_applied_array.length = t.nv ∨
      tau_applied_array.length = 0) then .error .fatalAssertion
  else match A_WB_array with
    | none => .error .fatalAssertion
    | some ab =>
      if ab.length ≠ t.numBodies then .error .fatalAssertion
      else match F_BMo_W_array with
        | none => .error .fatalAssertion
        | some fb =>
          if fb.length ≠ t.numBodies then .error .fatalAssertion
          else if tau_array.length ≠ t.nv then .error .fatalAssertion
          else .ok (CalcInverseDynamics t pc vc
            (fun i => known_vdot.getD i 0)
            (if Fapplied_Bo_W_array.length = 0 then none
              else some (fun n => Fapplied_Bo_W_array.getD n 0))
            (if tau_applied_array.length = 0 then none
              else some (fun i => tau_applied_array.getD i 0))
            (fun n => ab.getD n 0) (fun n => fb.getD n 0)
            (fun i => tau_array.getD i 0))

/-- Fuelled reference recursion for base-to-tip sweeps: node `n`'s value
is `g n` of the parent's value, the world's value being zero. -/
def refBTAux (par : ℕ → ℕ) (g : ℕ → SV → SV) : ℕ → ℕ → SV
  | 0, _ => 0
  | fuel + 1, n => if n = 0 then 0 else g n (refBTAux par g fuel (par n))

/-- Reference value of node `n` under a base-to-tip recursion. -/
def refBT (par : ℕ → ℕ) (g : ℕ → SV → SV) (n : ℕ) : SV :=
  refBTAux par g (n + 1) n

/-- Fuelled reference recursion for the tip-to-base force accumulation:
node `n`'s spatial force is the Newton-Euler balance over its children's
forces, the applied values being read from `fappV`. -/
def refTTAux (t : Topology) (pc : PositionKinematicsCache) (vc : ℕ → SV)
    (aref : ℕ → SV) (fappV : ℕ → SV) : ℕ → ℕ → SV
  | 0, n => idNodeForce pc (vc n) (aref n) (fappV n) 0 n
  | fuel + 1, n =>
      idNodeForce pc (vc n) (aref n) (fappV n)
        (∑ c ∈ childs t n,
          (phiF (pc.p_PB_W c)).mulVec (refTTAux t pc vc aref fappV fuel c))
        n

/-- Reference spatial force of node `n` in the tip-to-base recursion. -/
def refTT (t : Topology) (pc : PositionKinematicsCache) (vc : ℕ → SV)
    (aref : ℕ → SV) (fappV : ℕ → SV) (n : ℕ) : SV :=
  refTTAux t pc vc aref fappV (t.numBodies - n) n

/-- Unit basis vector `e j` (`VectorX<T>::Unit(nv, j)`). -/
def unitVec (j : ℕ) : ℕ → ℚ := fun i => if i = j then 1 else 0

/-- Reference spatial accelerations of the unit-impulse probes: the
base-to-tip recursion at zero velocity cache with generalized
acceleration `u`. -/
def Azero (t : Topology) (pc : PositionKinematicsCache) (u : ℕ → ℚ)
    (n : ℕ) : SV :=
  refBT t.parent (accNode t pc (fun _ => 0) u) n

/-- Reference spatial forces of the unit-impulse probes: the tip-to-base
recursion at zero velocity cache, no applied forces, accelerations given
by `Azero`. -/
def Fzero (t : Topology) (pc : PositionKinematicsCache) (u : ℕ → ℚ)
    (n : ℕ) : SV :=
  refTT t pc (fun _ => 0) (Azero t pc u) (fun _ => 0) n

/-- Canonical generalized-force output of one mass-matrix probe: the
inverse dynamics run at zero velocity cache, generalized acceleration
`u`, no applied forces and zeroed buffers. -/
def tauProbe (t : Topology) (pc : PositionKinematicsCache) (u : ℕ → ℚ) :
    ℕ → ℚ :=
  (CalcInverseDynamics t pc (fun _ => 0) u none none
    (fun _ => 0) (fun _ => 0) (fun _ => 0)).tau

/-- Positive definiteness of a spatial matrix. -/
def PosDefSM (a : SM) : Prop :=
  ∀ y : SV, y ≠ 0 → 0 < Matrix.dotProduct y (a.mulVec y)

/-- Physically valid mass distribution: every non-world body's spatial
inertia is a symmetric positive definite spatial matrix. -/
def PhysicallyValid (t : Topology) (pc : PositionKinematicsCache) : Prop :=
  ∀ n, n < t.numBodies → 1 ≤ n →
    (pc.M_B n).transpose = pc.M_B n ∧ PosDefSM (pc.M_B n)

/-- Non-degenerate mechanism: no nonzero generalized acceleration is lost,
i.e. every nonzero generalized-acceleration vector moves some body. -/
def Nondegenerate (t : Topology) (pc : PositionKinematicsCache) : Prop :=
  ∀ u : ℕ → ℚ, (∃ i, i < t.nv ∧ u i ≠ 0) →
    ∃ n, 1 ≤ n ∧ n < t.numBodies ∧ Azero t pc u n ≠ 0

/-- Quadratic form of a matrix buffer over the first `nv` coordinates. -/
def quadForm (t : Topology) (h : ℕ → ℕ → ℚ) (x : ℕ → ℚ) : ℚ :=
  ∑ i ∈ Finset.range t.nv, ∑ j ∈ Finset.range t.nv, x i * h i j * x j

/-- Reference spatial accelerations of an inverse-dynamics run. -/
def ArefOf (t : Topology) (pc : PositionKinematicsCache) (vc : ℕ → SV)
    (vdot : ℕ → ℚ) : ℕ → SV :=
  refBT t.parent (accNode t pc vc vdot)

/-- Per-node applied spatial force of an optional applied array. -/
def fappOf (o : Option (ℕ → SV)) : ℕ → SV := fun n =>
  match o with
  | some f => f n
  | none => 0

/-- Per-coordinate applied generalized force of an optional array. -/
def tauAppOf (o : Option (ℕ → ℚ)) : ℕ → ℚ := fun i =>
  match o with
  | some g => g i
  | none => 0

/-- Concrete topology used to exercise the theorems: the world plus one
body attached by a single-mobility mobilizer. -/
def T1 : Topology where
  numBodies := 2
  nv := 1
  parent := fun _ => 0
  vStart := fun _ => 0
  mCount := fun n => if n = 1 then 1 else 0
  treeHeight := 2
  levels := [[0], [1]]

/-- Unit vector along the third axis. -/
def e3 : V3 := ![0, 0, 1]

/-- Concrete position kinematics for `T1`: a revolute-like mobilizer about
the world z axis with a unit spatial inertia. -/
def PC1 : PositionKinematicsCache where
  p_PB_W := fun _ => 0
  H_PB_W := fun _ _ => Sum.elim e3 0
  M_B := fun _ => 1
  X_WB := fun _ => isoId

/-- Concrete context on `T1` with zero generalized velocity. -/
def CTX1 : Context where
  pc := PC1
  v := fun _ => 0

/-- Concrete chain topology with three nodes and two mobilities, used to
exercise probe-order independence. -/
def T2 : Topology where
  numBodies := 3
  nv := 2
  parent := fun n => n - 1
  vStart := fun n => n - 1
  mCount := fun n => if n = 0 then 0 else 1
  treeHeight := 3
  levels := [[0], [1], [2]]

/-- Concrete whole-model data over `T1` with no gravity field. -/
def M1 : MultibodyTreeModel where
  top := T1
  finalized := true
  gravity_field := none
  bodyNode := fun b => b

lemma cross3_zero_left (b : V3) : cross3 0 b = 0 := by
  funext i
  fin_cases i <;> simp [cross3]

lemma angOf_zero : angOf 0 = 0 := rfl

lemma linOf_zero : linOf 0 = 0 := rfl

lemma spatialCross_zero (x : SV) : spatialCross 0 x = 0 := by
  funext s
  cases s <;> simp [spatialCross, cross3_zero_left]

lemma gyroF_zero (p : SV) : gyroF 0 p = 0 := by
  funext s
  cases s <;> simp [gyroF, angOf_zero, linOf_zero, cross3_zero_left]

lemma crossMat_transpose (p : V3) :
    (crossMat p).transpose = -(crossMat p) := by
  ext i j
  fin_cases i <;> fin_cases j <;>
    simp [crossMat, Matrix.transpose_apply, Matrix.neg_apply]

lemma phiA_transpose (p : V3) : (phiA p).transpose = phiF p := by
  rw [phiA, phiF, Matrix.fromBlocks_transpose, Matrix.transpose_one,
    Matrix.transpose_zero, Matrix.transpose_neg, crossMat_transpose,
    neg_neg]

section WFFacts

variable {t : Topology}

lemma wf_pos (h : t.WF) : 0 < t.numBodies := h.1

lemma wf_parent_lt (h : t.WF) :
    ∀ n, n < t.numBodies → 1 ≤ n → t.parent n < n := h.2.1

lemma wf_sweep_mem (h : t.WF) :
    ∀ n ∈ t.sweepOrder, 1 ≤ n ∧ n < t.numBodies := h.2.2.1

lemma wf_mem_sweep (h : t.WF) :
    ∀ n, n < t.numBodies → 1 ≤ n → n ∈ t.sweepOrder := h.2.2.2.1

lemma wf_okBT (h : t.WF) : okBT t.parent [0] t.sweepOrder = true :=
  h.2.2.2.2.1

lemma wf_mem_id (h : t.WF) : ∀ n, n < t.numBodies → n ∈ t.idOrder :=
  h.2.2.2.2.2.1

lemma wf_okTT (h : t.WF) :
    okTT t.parent t.numBodies [] t.idOrder = true := h.2.2.2.2.2.2.1

lemma wf_vs0 (h : t.WF) : t.vStart 0 = 0 := h.2.2.2.2.2.2.2.1

lemma wf_mc0 (h : t.WF) : t.mCount 0 = 0 := h.2.2.2.2.2.2.2.2.1

lemma wf_vs_succ (h : t.WF) :
    ∀ n, n + 1 < t.numBodies →
      t.vStart (n + 1) = t.vStart n + t.mCount n := fun n hn =>
  h.2.2.2.2.2.2.2.2.2.1 n (by omega) hn

lemma wf_last (h : t.WF) :
    t.vStart (t.numBodies - 1) + t.mCount (t.numBodies - 1) = t.nv :=
  h.2.2.2.2.2.2.2.2.2.2

lemma slice_mono (h : t.WF) :
    ∀ d m, m + 1 + d < t.numBodies →
      t.vStart m + t.mCount m ≤ t.vStart (m + 1 + d) := by
  intro d
  induction d with
  | zero =>
    intro m hm
    exact le_of_eq (wf_vs_succ h m hm).symm
  | succ d ih =>
    intro m hm
    have h1 : m + 1 + d < t.numBodies := by omega
    have h2 : (m + 1 + d) + 1 < t.numBodies := by omega
    calc t.vStart m + t.mCount m ≤ t.vStart (m + 1 + d) := ih m h1
    _ ≤ t.vStart (m + 1 + d) + t.mCount (m + 1 + d) := Nat.le_add_right _ _
    _ = t.vStart (m + 1 + d + 1) := (wf_vs_succ h _ h2).symm
    _ = t.vStart (m + 1 + (d + 1)) := by ring_nf

lemma slice_lt_of_lt (h : t.WF) {m n : ℕ} (hmn : m < n)
    (hn : n < t.numBodies) : t.vStart m + t.mCount m ≤ t.vStart n := by
  have hd : n = m + 1 + (n - m - 1) := by omega
  rw [hd]
  exact slice_mono h (n - m - 1) m (by omega)

lemma slice_ub (h : t.WF) {n : ℕ} (hn : n < t.numBodies) :
    t.vStart n + t.mCount n ≤ t.nv := by
  rcases Nat.lt_or_ge n (t.numBodies - 1) with h1 | h1
  · calc t.vStart n + t.mCount n ≤ t.vStart (t.numBodies - 1) :=
      slice_lt_of_lt h h1 (by omega)
    _ ≤ t.vStart (t.numBodies - 1) + t.mCount (t.numBodies - 1) :=
      Nat.le_add_right _ _
    _ = t.nv := wf_last h
  · have : n = t.numBodies - 1 := by omega
    rw [this]
    exact le_of_eq (wf_last h)

lemma slice_disjoint (h : t.WF) {m n i : ℕ} (hm : m < t.numBodies)
    (hn : n < t.numBodies) (hne : m ≠ n)
    (hi : t.vStart m ≤ i ∧ i < t.vStart m + t.mCount m) :
    ¬(t.vStart n ≤ i ∧ i < t.vStart n + t.mCount n) := by
  rcases Nat.lt_or_ge m n with hlt | hge
  · have := slice_lt_of_lt h hlt hn
    omega
  · have hlt : n < m := by omega
    have := slice_lt_of_lt h hlt hm
    omega

lemma slice_cover_aux (h : t.WF) :
    ∀ n, n < t.numBodies → ∀ i, i < t.vStart n + t.mCount n →
      ∃ m, m < t.numBodies ∧ t.vStart m ≤ i ∧
        i < t.vStart m + t.mCount m := by
  intro n
  induction n using Nat.strong_induction_on with
  | _ n ih =>
    intro hn i hi
    rcases Nat.lt_or_ge i (t.vStart n) with hlo | hhi
    · match n, hn with
      | 0, hn =>
        rw [wf_vs0 h] at hlo
        omega
      | k + 1, hn =>
        have hk : t.vStart (k + 1) = t.vStart k + t.mCount k :=
          wf_vs_succ h k hn
        exact ih k (Nat.lt_succ_self k) (by omega) i (by omega)
    · exact ⟨n, hn, hhi, hi⟩

lemma slice_cover (h : t.WF) {i : ℕ} (hi : i < t.nv) :
    ∃ m, m < t.numBodies ∧ t.vStart m ≤ i ∧
      i < t.vStart m + t.mCount m := by
  have hpos := wf_pos h
  refine slice_cover_aux h (t.numBodies - 1) (by omega) i ?_
  rw [wf_last h]
  exact hi

end WFFacts

section BaseToTip

variable {par : ℕ → ℕ} {g : ℕ → SV → SV} {N : ℕ}

lemma refBTAux_congr (hpar : ∀ m, m < N → 1 ≤ m → par m < m) :
    ∀ n, n < N → ∀ f1 f2, n < f1 → n < f2 →
      refBTAux par g f1 n = refBTAux par g f2 n := by
  intro n
  induction n using Nat.strong_induction_on with
  | _ n ih =>
    intro hn f1 f2 h1 h2
    match f1, h1 with
    | f1 + 1, h1 =>
      match f2, h2 with
      | f2 + 1, h2 =>
        by_cases h0 : n = 0
        · subst h0
          simp [refBTAux]
        · have h1n : 1 ≤ n := by omega
          have hp := hpar n hn h1n
          simp only [refBTAux, if_neg h0]
          rw [ih (par n) hp (by omega) f1 f2 (by omega) (by omega)]

lemma refBT_zero : refBT par g 0 = 0 := by
  simp [refBT, refBTAux]

lemma refBTAux_succ (fuel n : ℕ) :
    refBTAux par g (fuel + 1) n =
      if n = 0 then 0 else g n (refBTAux par g fuel (par n)) := rfl

lemma refBT_succ (hpar : ∀ m, m < N → 1 ≤ m → par m < m) {n : ℕ}
    (h1 : 1 ≤ n) (hn : n < N) :
    refBT par g n = g n (refBT par g (par n)) := by
  have h0 : n ≠ 0 := by omega
  have hp := hpar n hn h1
  rw [refBT, refBTAux_succ, if_neg h0,
    refBTAux_congr hpar (par n) (by omega) n (par n + 1) hp
      (Nat.lt_succ_self _)]
  rfl

lemma btSweep_char (hpar : ∀ m, m < N → 1 ≤ m → par m < m)
    (order : List ℕ) :
    ∀ (done : List ℕ) (a : ℕ → SV),
      (∀ n ∈ order, 1 ≤ n ∧ n < N) →
      okBT par done order = true →
      (∀ m ∈ done, a m = refBT par g m) →
      (∀ m, m ∈ done ∨ m ∈ order →
        btSweep par g order a m = refBT par g m) ∧
      (∀ m, ¬(m ∈ done ∨ m ∈ order) → btSweep par g order a m = a m) := by
  induction order with
  | nil =>
    intro done a _ _ hdone
    constructor
    · intro m hm
      rcases hm with hm | hm
      · exact hdone m hm
      · simp at hm
    · intro m _
      rfl
  | cons n rest ih =>
    intro done a hmem hok hdone
    have hn := hmem n (List.mem_cons_self n rest)
    simp only [okBT, Bool.and_eq_true, decide_eq_true_eq] at hok
    obtain ⟨hpd, hrest⟩ := hok
    set a1 := Function.update a n (g n (a (par n))) with ha1
    have hkey : a1 n = refBT par g n := by
      rw [ha1, Function.update_same, hdone (par n) hpd]
      exact (refBT_succ hpar hn.1 hn.2).symm
    have hdone1 : ∀ m ∈ n :: done, a1 m = refBT par g m := by
      intro m hm
      rcases List.mem_cons.mp hm with hm | hm
      · subst hm
        exact hkey
      · by_cases hmn : m = n
        · subst hmn
          exact hkey
        · rw [ha1, Function.update_noteq hmn]
          exact hdone m hm
    have hmem1 : ∀ q ∈ rest, 1 ≤ q ∧ q < N := by
      intro q hq
      exact hmem q (List.mem_cons_of_mem n hq)
    have hfold : btSweep par g (n :: rest) a = btSweep par g rest a1 := rfl
    obtain ⟨p1, p2⟩ := ih (n :: done) a1 hmem1 hrest hdone1
    constructor
    · intro m hm
      rw [hfold]
      rcases hm with hm | hm
      · exact p1 m (Or.inl (List.mem_cons_of_mem n hm))
      · rcases List.mem_cons.mp hm with hm | hm
        · subst hm
          exact p1 m (Or.inl (List.mem_cons_self m done))
        · exact p1 m (Or.inr hm)
    · intro m hm
      push_neg at hm
      have hne : m ≠ n := by
        intro hc
        exact hm.2 (by simp [hc])
      have hm1 : m ∉ n :: done := by
        intro hc
        rcases List.mem_cons.mp hc with hc | hc
        · exact hne hc
        · exact hm.1 hc
      have hm2 : m ∉ rest := fun hc => hm.2 (List.mem_cons_of_mem n hc)
      rw [hfold, p2 m (by tauto), ha1, Function.update_noteq hne]

lemma btSweep_world (order : List ℕ) (horder : ∀ n ∈ order, 1 ≤ n) :
    ∀ a : ℕ → SV, btSweep par g order a 0 = a 0 := by
  induction order with
  | nil =>
    intro a
    rfl
  | cons n rest ih =>
    intro a
    have hn := horder n (List.mem_cons_self n rest)
    have : btSweep par g (n :: rest) a =
        btSweep par g rest (Function.update a n (g n (a (par n)))) := rfl
    rw [this, ih (fun q hq => horder q (List.mem_cons_of_mem n hq)),
      Function.update_noteq (by omega)]

end BaseToTip

section DriverChar

variable {t : Topology} {pc : PositionKinematicsCache}

lemma calcVel_char (hwf : t.WF) (v : ℕ → ℚ) :
    ∀ n, n < t.numBodies →
      CalcVelocityKinematicsCache t pc v n =
        refBT t.parent (velNode t pc v) n := by
  intro n hn
  have hd : ∀ m ∈ ([0] : List ℕ),
      (fun _ => (0 : SV)) m = refBT t.parent (velNode t pc v) m := by
    intro m hm
    simp only [List.mem_singleton] at hm
    subst hm
    exact refBT_zero.symm
  have h := btSweep_char (wf_parent_lt hwf) t.sweepOrder [0] (fun _ => 0)
    (wf_sweep_mem hwf) (wf_okBT hwf) hd
  rcases Nat.eq_zero_or_pos n with h0 | h1
  · subst h0
    exact h.1 0 (Or.inl (by simp))
  · exact h.1 n (Or.inr (wf_mem_sweep hwf n hn h1))

lemma calcAcc_char (hwf : t.WF) (vc : ℕ → SV) (vdot : ℕ → ℚ)
    (a0 : ℕ → SV) :
    ∀ n, n < t.numBodies →
      CalcSpatialAccelerationsFromVdot t pc vc vdot a0 n =
        refBT t.parent (accNode t pc vc vdot) n := by
  intro n hn
  have hd : ∀ m ∈ ([0] : List ℕ),
      Function.update a0 0 0 m =
        refBT t.parent (accNode t pc vc vdot) m := by
    intro m hm
    simp only [List.mem_singleton] at hm
    subst hm
    rw [Function.update_same]
    exact refBT_zero.symm
  have h := btSweep_char (wf_parent_lt hwf) t.sweepOrder [0]
    (Function.update a0 0 0) (wf_sweep_mem hwf) (wf_okBT hwf) hd
  rcases Nat.eq_zero_or_pos n with h0 | h1
  · subst h0
    exact h.1 0 (Or.inl (by simp))
  · exact h.1 n (Or.inr (wf_mem_sweep hwf n hn h1))

variable {vc : ℕ → SV} {aref : ℕ → SV} {fappV : ℕ → SV}

lemma refTTAux_congr
    (hpar : ∀ m, m < t.numBodies → 1 ≤ m → t.parent m < m) :
    ∀ k n, k = t.numBodies - n → n < t.numBodies → ∀ f1 f2,
      t.numBodies - n ≤ f1 → t.numBodies - n ≤ f2 →
      refTTAux t pc vc aref fappV f1 n =
        refTTAux t pc vc aref fappV f2 n := by
  intro k
  induction k using Nat.strong_induction_on with
  | _ k ih =>
    intro n hk hn f1 f2 h1 h2
    have hk1 : 1 ≤ t.numBodies - n := by omega
    match f1, (show 1 ≤ f1 by omega) with
    | f1 + 1, _ =>
    match f2, (show 1 ≤ f2 by omega) with
    | f2 + 1, _ =>
    simp only [refTTAux]
    have hsum : (∑ c ∈ childs t n,
        (phiF (pc.p_PB_W c)).mulVec (refTTAux t pc vc aref fappV f1 c)) =
        ∑ c ∈ childs t n,
          (phiF (pc.p_PB_W c)).mulVec (refTTAux t pc vc aref fappV f2 c) := by
      apply Finset.sum_congr rfl
      intro c hc
      simp only [childs, Finset.mem_filter, Finset.mem_range] at hc
      have hlt : n < c := by
        have := hpar c hc.1 hc.2.2
        omega
      rw [ih (t.numBodies - c) (by omega) c rfl hc.1 f1 f2 (by omega)
        (by omega)]
    rw [hsum]

lemma refTT_eq (hpar : ∀ m, m < t.numBodies → 1 ≤ m → t.parent m < m)
    {n : ℕ} (hn : n < t.numBodies) :
    refTT t pc vc aref fappV n =
      idNodeForce pc (vc n) (aref n) (fappV n)
        (∑ c ∈ childs t n,
          (phiF (pc.p_PB_W c)).mulVec (refTT t pc vc aref fappV c)) n := by
  obtain ⟨m, hm⟩ : ∃ m, t.numBodies - n = m + 1 :=
    ⟨t.numBodies - n - 1, by omega⟩
  rw [refTT, hm]
  simp only [refTTAux]
  have hsum : (∑ c ∈ childs t n,
      (phiF (pc.p_PB_W c)).mulVec (refTTAux t pc vc aref fappV m c)) =
      ∑ c ∈ childs t n,
        (phiF (pc.p_PB_W c)).mulVec (refTT t pc vc aref fappV c) := by
    apply Finset.sum_congr rfl
    intro c hc
    simp only [childs, Finset.mem_filter, Finset.mem_range] at hc
    have hlt : n < c := by
      have := hpar c hc.1 hc.2.2
      omega
    rw [refTTAux_congr hpar (t.numBodies - c) c rfl hc.1 m
      (t.numBodies - c) (by omega) le_rfl]
    rfl
  rw [hsum]

end DriverChar

section IdSweepChar

variable {t : Topology} {pc : PositionKinematicsCache} {vc : ℕ → SV}

lemma idSweep_char (hwf : t.WF) (a aref : ℕ → SV)
    (hA : ∀ m, m < t.numBodies → a m = aref m)
    (fappV : ℕ → SV) (tauAppV : ℕ → ℚ)
    (readF : IDState → ℕ → SV) (readT : IDState → ℕ → ℚ)
    (s0 : IDState)
    (hrF : ∀ s n, n < t.numBodies → s.F n = s0.F n → readF s n = fappV n)
    (hrT : ∀ s i, s.tau i = s0.tau i → readT s i = tauAppV i) :
    ∀ (order done : List ℕ) (s : IDState),
      okTT t.parent t.numBodies done order = true →
      (∀ m ∈ done, m < t.numBodies) →
      (∀ m ∈ done, s.F m = refTT t pc vc aref fappV m) →
      (∀ m, m ∉ done → s.F m = s0.F m) →
      (∀ i, (∀ m ∈ done,
          ¬(t.vStart m ≤ i ∧ i < t.vStart m + t.mCount m)) →
        s.tau i = s0.tau i) →
      (∀ m ∈ done, ∀ i, t.vStart m ≤ i → i < t.vStart m + t.mCount m →
        s.tau i = Matrix.dotProduct (pc.H_PB_W m (i - t.vStart m))
          (refTT t pc vc aref fappV m) - tauAppV i) →
      (∀ m, m ∈ done ∨ m ∈ order →
        (order.foldl (idStep t pc vc a readF readT) s).F m =
          refTT t pc vc aref fappV m) ∧
      (∀ m, m ∈ done ∨ m ∈ order → ∀ i, t.vStart m ≤ i →
        i < t.vStart m + t.mCount m →
        (order.foldl (idStep t pc vc a readF readT) s).tau i =
          Matrix.dotProduct (pc.H_PB_W m (i - t.vStart m))
            (refTT t pc vc aref fappV m) - tauAppV i) := by
  intro order
  induction order with
  | nil =>
    intro done s hok hd1 hd2 hd3 hd4 hd5
    refine ⟨fun m hm => ?_, fun m hm i hi1 hi2 => ?_⟩
    · rcases hm with hm | hm
      · exact hd2 m hm
      · simp at hm
    · rcases hm with hm | hm
      · exact hd5 m hm i hi1 hi2
      · simp at hm
  | cons n rest ih =>
    intro done s hok hd1 hd2 hd3 hd4 hd5
    simp only [okTT, Bool.and_eq_true, decide_eq_true_eq] at hok
    obtain ⟨⟨⟨hnN, hnd⟩, hch⟩, hrest⟩ := hok
    set s1 := idStep t pc vc a readF readT s n with hs1def
    have hs1F : s1.F = Function.update s.F n
        (idNodeForce pc (vc n) (a n) (readF s n)
          (∑ c ∈ childs t n, (phiF (pc.p_PB_W c)).mulVec (s.F c)) n) := rfl
    have hs1tau : s1.tau = fun i =>
        if t.vStart n ≤ i ∧ i < t.vStart n + t.mCount n then
          Matrix.dotProduct (pc.H_PB_W n (i - t.vStart n))
            (idNodeForce pc (vc n) (a n) (readF s n)
              (∑ c ∈ childs t n,
                (phiF (pc.p_PB_W c)).mulVec (s.F c)) n) - readT s i
        else s.tau i := rfl
    have hcsum : (∑ c ∈ childs t n,
        (phiF (pc.p_PB_W c)).mulVec (s.F c)) =
        ∑ c ∈ childs t n,
          (phiF (pc.p_PB_W c)).mulVec (refTT t pc vc aref fappV c) := by
      apply Finset.sum_congr rfl
      intro c hc
      simp only [childs, Finset.mem_filter, Finset.mem_range] at hc
      rw [hd2 c (hch c hc.1 hc.2.1 hc.2.2)]
    have hfapp : readF s n = fappV n := hrF s n hnN (hd3 n hnd)
    have hfb : idNodeForce pc (vc n) (a n) (readF s n)
        (∑ c ∈ childs t n, (phiF (pc.p_PB_W c)).mulVec (s.F c)) n =
        refTT t pc vc aref fappV n := by
      rw [hcsum, hfapp, hA n hnN]
      exact (refTT_eq (wf_parent_lt hwf) hnN).symm
    have hreadT : ∀ i, t.vStart n ≤ i → i < t.vStart n + t.mCount n →
        readT s i = tauAppV i := by
      intro i hi1 hi2
      apply hrT
      apply hd4
      intro m hm
      have hne : n ≠ m := by
        intro hc
        exact hnd (hc ▸ hm)
      exact slice_disjoint hwf hnN (hd1 m hm) hne ⟨hi1, hi2⟩
    have hd1' : ∀ m ∈ n :: done, m < t.numBodies := by
      intro m hm
      rcases List.mem_cons.mp hm with hm | hm
      · exact hm ▸ hnN
      · exact hd1 m hm
    have hd2' : ∀ m ∈ n :: done, s1.F m = refTT t pc vc aref fappV m := by
      intro m hm
      rcases List.mem_cons.mp hm with hm | hm
      · subst hm
        rw [hs1F, Function.update_same]
        exact hfb
      · have hne : m ≠ n := by
          intro hc
          exact hnd (hc ▸ hm)
        rw [hs1F, Function.update_noteq hne]
        exact hd2 m hm
    have hd3' : ∀ m, m ∉ n :: done → s1.F m = s0.F m := by
      intro m hm
      have hne : m ≠ n := fun hc => hm (by simp [hc])
      rw [hs1F, Function.update_noteq hne]
      exact hd3 m (fun hc => hm (List.mem_cons_of_mem n hc))
    have hd4' : ∀ i, (∀ m ∈ n :: done,
        ¬(t.vStart m ≤ i ∧ i < t.vStart m + t.mCount m)) →
        s1.tau i = s0.tau i := by
      intro i hi
      have hnsl := hi n (List.mem_cons_self n done)
      rw [hs1tau]
      simp only [if_neg hnsl]
      exact hd4 i (fun m hm => hi m (List.mem_cons_of_mem n hm))
    have hd5' : ∀ m ∈ n :: done, ∀ i, t.vStart m ≤ i →
        i < t.vStart m + t.mCount m →
        s1.tau i = Matrix.dotProduct (pc.H_PB_W m (i - t.vStart m))
          (refTT t pc vc aref fappV m) - tauAppV i := by
      intro m hm i hi1 hi2
      rcases List.mem_cons.mp hm with hm | hm
      · subst hm
        rw [hs1tau]
        simp only [if_pos (And.intro hi1 hi2)]
        rw [hfb, hreadT i hi1 hi2]
      · have hne : m ≠ n := by
          intro hc
          exact hnd (hc ▸ hm)
        have hnsl : ¬(t.vStart n ≤ i ∧ i < t.vStart n + t.mCount n) :=
          slice_disjoint hwf (hd1 m hm) hnN hne ⟨hi1, hi2⟩
        rw [hs1tau]
        simp only [if_neg hnsl]
        exact hd5 m hm i hi1 hi2
    have hfold : (n :: rest).foldl (idStep t pc vc a readF readT) s =
        rest.foldl (idStep t pc vc a readF readT) s1 := rfl
    obtain ⟨p1, p2⟩ := ih (n :: done) s1 hrest hd1' hd2' hd3' hd4' hd5'
    refine ⟨fun m hm => ?_, fun m hm i hi1 hi2 => ?_⟩
    · rw [hfold]
      rcases hm with hm | hm
      · exact p1 m (Or.inl (List.mem_cons_of_mem n hm))
      · rcases List.mem_cons.mp hm with hm | hm
        · exact p1 m (Or.inl (hm ▸ List.mem_cons_self n done))
        · exact p1 m (Or.inr hm)
    · rw [hfold]
      rcases hm with hm | hm
      · exact p2 m (Or.inl (List.mem_cons_of_mem n hm)) i hi1 hi2
      · rcases List.mem_cons.mp hm with hm | hm
        · exact p2 m (Or.inl (hm ▸ List.mem_cons_self n done)) i hi1 hi2
        · exact p2 m (Or.inr hm) i hi1 hi2

end IdSweepChar

section CIDChar

variable {t : Topology} {pc : PositionKinematicsCache} {vc : ℕ → SV}

lemma CID_char (hwf : t.WF) (vdot : ℕ → ℚ)
    (Fapp : Option (ℕ → SV)) (tauApp : Option (ℕ → ℚ))
    (A0 F0 : ℕ → SV) (tau0 : ℕ → ℚ) :
    (∀ n, n < t.numBodies →
      (CalcInverseDynamics t pc vc vdot Fapp tauApp A0 F0 tau0).F n =
        refTT t pc vc (ArefOf t pc vc vdot) (fappOf Fapp) n) ∧
    (∀ n, n < t.numBodies → ∀ i, t.vStart n ≤ i →
      i < t.vStart n + t.mCount n →
      (CalcInverseDynamics t pc vc vdot Fapp tauApp A0 F0 tau0).tau i =
        Matrix.dotProduct (pc.H_PB_W n (i - t.vStart n))
          (refTT t pc vc (ArefOf t pc vc vdot) (fappOf Fapp) n) -
          tauAppOf tauApp i) := by
  have hA : ∀ m, m < t.numBodies →
      CalcSpatialAccelerationsFromVdot t pc vc vdot A0 m =
        ArefOf t pc vc vdot m := calcAcc_char hwf vc vdot A0
  have h := @idSweep_char t pc vc hwf
    (CalcSpatialAccelerationsFromVdot t pc vc vdot A0)
    (ArefOf t pc vc vdot) hA (fappOf Fapp) (tauAppOf tauApp)
    (fun _ n => match Fapp with
      | some f => f n
      | none => 0)
    (fun _ i => match tauApp with
      | some g => g i
      | none => 0)
    ⟨F0, tau0⟩ (fun _ _ _ _ => rfl) (fun _ _ _ => rfl)
    t.idOrder [] ⟨F0, tau0⟩ (wf_okTT hwf) (by simp) (by simp)
    (fun _ _ => rfl) (fun _ _ => rfl) (by simp)
  constructor
  · intro n hn
    exact h.1 n (Or.inr (wf_mem_id hwf n hn))
  · intro n hn i hi1 hi2
    exact h.2 n (Or.inr (wf_mem_id hwf n hn)) i hi1 hi2

lemma CIDA_char (hwf : t.WF) (vdot : ℕ → ℚ) (aliasF aliasT : Bool)
    (Fapp : ℕ → SV) (tauApp : ℕ → ℚ) (A0 F0 : ℕ → SV) (tau0 : ℕ → ℚ) :
    (∀ n, n < t.numBodies →
      (CalcInverseDynamicsAliased t pc vc vdot aliasF aliasT Fapp tauApp
        A0 F0 tau0).F n =
        refTT t pc vc (ArefOf t pc vc vdot) Fapp n) ∧
    (∀ n, n < t.numBodies → ∀ i, t.vStart n ≤ i →
      i < t.vStart n + t.mCount n →
      (CalcInverseDynamicsAliased t pc vc vdot aliasF aliasT Fapp tauApp
        A0 F0 tau0).tau i =
        Matrix.dotProduct (pc.H_PB_W n (i - t.vStart n))
          (refTT t pc vc (ArefOf t pc vc vdot) Fapp n) - tauApp i) := by
  have hA : ∀ m, m < t.numBodies →
      CalcSpatialAccelerationsFromVdot t pc vc vdot A0 m =
        ArefOf t pc vc vdot m := calcAcc_char hwf vc vdot A0
  have hrF : ∀ (s : IDState) n, n < t.numBodies →
      s.F n = (if aliasF then Fapp else F0) n →
      (if aliasF then s.F n else Fapp n) = Fapp n := by
    intro s n _ hs
    cases aliasF
    · simp
    · simpa using hs
  have hrT : ∀ (s : IDState) i,
      s.tau i = (if aliasT then tauApp else tau0) i →
      (if aliasT then s.tau i else tauApp i) = tauApp i := by
    intro s i hs
    cases aliasT
    · simp
    · simpa using hs
  have h := @idSweep_char t pc vc hwf
    (CalcSpatialAccelerationsFromVdot t pc vc vdot A0)
    (ArefOf t pc vc vdot) hA Fapp tauApp
    (fun s n => if aliasF then s.F n else Fapp n)
    (fun s i => if aliasT then s.tau i else tauApp i)
    ⟨(if aliasF then Fapp else F0), (if aliasT then tauApp else tau0)⟩
    hrF hrT t.idOrder []
    ⟨(if aliasF then Fapp else F0), (if aliasT then tauApp else tau0)⟩
    (wf_okTT hwf) (by simp) (by simp) (fun _ _ => rfl) (fun _ _ => rfl)
    (by simp)
  constructor
  · intro n hn
    exact h.1 n (Or.inr (wf_mem_id hwf n hn))
  · intro n hn i hi1 hi2
    exact h.2 n (Or.inr (wf_mem_id hwf n hn)) i hi1 hi2

end CIDChar

section ZeroLemmas

variable {t : Topology} {pc : PositionKinematicsCache}

lemma sum_elim_zero : (Sum.elim (0 : V3) (0 : V3) : SV) = 0 := by
  funext s
  cases s <;> rfl

lemma mobility_zero (n : ℕ) (coeffs : ℕ → ℚ)
    (hc : ∀ k, k < t.mCount n → coeffs (t.vStart n + k) = 0) :
    mobility t pc coeffs n = 0 := by
  rw [mobility]
  apply Finset.sum_eq_zero
  intro k hk
  rw [hc k (Finset.mem_range.mp hk), zero_smul]

lemma vel_ref_zero (hwf : t.WF) (v : ℕ → ℚ)
    (hv : ∀ i, i < t.nv → v i = 0) :
    ∀ n, n < t.numBodies → refBT t.parent (velNode t pc v) n = 0 := by
  intro n
  induction n using Nat.strong_induction_on with
  | _ n ih =>
    intro hn
    rcases Nat.eq_zero_or_pos n with h0 | h1
    · subst h0
      exact refBT_zero
    · have hp := wf_parent_lt hwf n hn h1
      have hub := slice_ub hwf hn
      rw [refBT_succ (wf_parent_lt hwf) h1 hn, velNode,
        ih (t.parent n) hp (by omega), Matrix.mulVec_zero,
        mobility_zero n v (fun k hk => hv _ (by omega))]
      simp

lemma acc_ref_zero (hwf : t.WF) (vcE : ℕ → SV)
    (hvc : ∀ m, m < t.numBodies → vcE m = 0) :
    ∀ n, n < t.numBodies → ArefOf t pc vcE (fun _ => 0) n = 0 := by
  intro n
  induction n using Nat.strong_induction_on with
  | _ n ih =>
    intro hn
    rcases Nat.eq_zero_or_pos n with h0 | h1
    · subst h0
      exact refBT_zero
    · have hp := wf_parent_lt hwf n hn h1
      rw [ArefOf, refBT_succ (wf_parent_lt hwf) h1 hn]
      have hihp : refBT t.parent (accNode t pc vcE fun _ => 0)
          (t.parent n) = 0 := ih (t.parent n) hp (by omega)
      rw [accNode, hihp, Matrix.mulVec_zero, hvc n hn,
        hvc (t.parent n) (by omega), angOf_zero, cross3_zero_left,
        spatialCross_zero,
        mobility_zero n (fun _ => 0) (fun _ _ => rfl)]
      rw [sum_elim_zero]
      simp

lemma tt_ref_zero (hwf : t.WF) (vcE aref : ℕ → SV)
    (hvc : ∀ m, m < t.numBodies → vcE m = 0)
    (ha : ∀ m, m < t.numBodies → aref m = 0) :
    ∀ n, n < t.numBodies →
      refTT t pc vcE aref (fun _ => 0) n = 0 := by
  suffices h : ∀ k n, k = t.numBodies - n → n < t.numBodies →
      refTT t pc vcE aref (fun _ => 0) n = 0 by
    intro n hn
    exact h (t.numBodies - n) n rfl hn
  intro k
  induction k using Nat.strong_induction_on with
  | _ k ih =>
    intro n hk hn
    rw [refTT_eq (wf_parent_lt hwf) hn]
    have hcsum : (∑ c ∈ childs t n,
        (phiF (pc.p_PB_W c)).mulVec
          (refTT t pc vcE aref (fun _ => 0) c)) = 0 := by
      apply Finset.sum_eq_zero
      intro c hc
      simp only [childs, Finset.mem_filter, Finset.mem_range] at hc
      have hlt : n < c := by
        have := wf_parent_lt hwf c hc.1 hc.2.2
        omega
      rw [ih (t.numBodies - c) (by omega) c rfl hc.1, Matrix.mulVec_zero]
    rw [hcsum, idNodeForce]
    by_cases h0 : n = 0
    · simp [h0]
    · simp [h0, hvc n hn, ha n hn, gyroF_zero, Matrix.mulVec_zero]

end ZeroLemmas

/-- Claim C3: for every valid configuration, if the generalized-velocity
vector is zero then the bias term (the Coriolis/centrifugal generalized
force computed by `CalcBiasTerm`) is the zero vector. -/
theorem biasTerm_zero_at_zero_velocity (t : Topology) (ctx : Context)
    (A0 F0 : ℕ → SV) (Cv0 : ℕ → ℚ) (hwf : t.WF)
    (hv : ∀ i, i < t.nv → ctx.v i = 0) :
    ∀ i, i < t.nv → CalcBiasTerm t ctx A0 F0 Cv0 i = 0 := by
  intro i hi
  obtain ⟨n, hn, hi1, hi2⟩ := slice_cover hwf hi
  have hvc : ∀ m, m < t.numBodies →
      EvalVelocityKinematics t ctx m = 0 := by
    intro m hm
    rw [EvalVelocityKinematics, calcVel_char hwf ctx.v m hm]
    exact vel_ref_zero hwf ctx.v hv m hm
  rw [CalcBiasTerm, DoCalcBiasTerm,
    (@CID_char t (EvalPositionKinematics ctx)
      (EvalVelocityKinematics t ctx) hwf (fun _ => 0) none none
      A0 F0 Cv0).2 n hn i hi1 hi2]
  have haz : ∀ m, m < t.numBodies →
      ArefOf t (EvalPositionKinematics ctx)
        (EvalVelocityKinematics t ctx) (fun _ => 0) m = 0 :=
    acc_ref_zero hwf _ hvc
  have htt : refTT t (EvalPositionKinematics ctx)
      (EvalVelocityKinematics t ctx)
      (ArefOf t (EvalPositionKinematics ctx)
        (EvalVelocityKinematics t ctx) (fun _ => 0))
      (fun _ => 0) n = 0 :=
    tt_ref_zero hwf _ _ hvc haz n hn
  have htt2 : refTT t (EvalPositionKinematics ctx)
      (EvalVelocityKinematics t ctx)
      (ArefOf t (EvalPositionKinematics ctx)
        (EvalVelocityKinematics t ctx) (fun _ => 0))
      (fappOf none) n = 0 := htt
  rw [htt2, Matrix.dotProduct_zero]
  simp [tauAppOf]

/-- Claim C3 witness at the concrete instance. -/
theorem biasTerm_zero_at_zero_velocity_witness :
    T1.WF ∧ (∀ i, i < T1.nv → CTX1.v i = 0) ∧
      CalcBiasTerm T1 CTX1 (fun _ => 0) (fun _ => 0) (fun _ => 0) 0 = 0 :=
  ⟨by decide, fun _ _ => rfl,
    biasTerm_zero_at_zero_velocity T1 CTX1 _ _ _ (by decide)
      (fun _ _ => rfl) 0 (by decide)⟩

/-- Claim C4: for every configuration and generalized velocity, the bias
term returned by `CalcBiasTerm` equals the generalized-force vector
returned by a single `CalcInverseDynamics` evaluation with the
generalized accelerations held at zero and no applied spatial or
generalized forces, independently of the contents of either call's
scratch buffers. -/
theorem biasTerm_eq_inverse_dynamics_zero_vdot (t : Topology)
    (ctx : Context) (A0 F0 A1 F1 : ℕ → SV) (Cv0 tau1 : ℕ → ℚ)
    (hwf : t.WF) :
    ∀ i, i < t.nv →
      CalcBiasTerm t ctx A0 F0 Cv0 i =
        (CalcInverseDynamics t (EvalPositionKinematics ctx)
          (EvalVelocityKinematics t ctx) (fun _ => 0) none none
          A1 F1 tau1).tau i := by
  intro i hi
  obtain ⟨n, hn, hi1, hi2⟩ := slice_cover hwf hi
  rw [CalcBiasTerm, DoCalcBiasTerm,
    (@CID_char t (EvalPositionKinematics ctx)
      (EvalVelocityKinematics t ctx) hwf (fun _ => 0) none none
      A0 F0 Cv0).2 n hn i hi1 hi2,
    (@CID_char t (EvalPositionKinematics ctx)
      (EvalVelocityKinematics t ctx) hwf (fun _ => 0) none none
      A1 F1 tau1).2 n hn i hi1 hi2]

/-- Claim C4 witness at the concrete instance. -/
theorem biasTerm_eq_inverse_dynamics_zero_vdot_witness :
    T1.WF ∧
      CalcBiasTerm T1 CTX1 (fun _ => 0) (fun _ => 0) (fun _ => 0) 0 =
        (CalcInverseDynamics T1 (EvalPositionKinematics CTX1)
          (EvalVelocityKinematics T1 CTX1) (fun _ => 0) none none
          (fun _ => Sum.elim e3 e3) (fun _ => Sum.elim e3 e3)
          (fun _ => 7)).tau 0 :=
  ⟨by decide,
    biasTerm_eq_inverse_dynamics_zero_vdot T1 CTX1 _ _ _ _ _ _
      (by decide) 0 (by decide)⟩

/-- Claim C5: for every input (any kinematic data and any known
generalized-acceleration vector), the world entry of the
spatial-acceleration array written by `CalcSpatialAccelerationsFromVdot`
is exactly zero: it is set to zero up front and no later step of the
sweep overwrites it. -/
theorem world_spatial_acceleration_zero (t : Topology)
    (pc : PositionKinematicsCache) (vc : ℕ → SV) (known_vdot : ℕ → ℚ)
    (A0 : ℕ → SV) (hwf : t.WF) :
    CalcSpatialAccelerationsFromVdot t pc vc known_vdot A0 0 = 0 := by
  rw [CalcSpatialAccelerationsFromVdot,
    btSweep_world t.sweepOrder (fun n hn => (wf_sweep_mem hwf n hn).1)]
  exact Function.update_same 0 0 A0

/-- Claim C5 witness at the concrete instance. -/
theorem world_spatial_acceleration_zero_witness :
    T1.WF ∧ CalcSpatialAccelerationsFromVdot T1 PC1
      (fun _ => Sum.elim e3 e3) (fun _ => 5)
      (fun _ => Sum.elim e3 e3) 0 = 0 :=
  ⟨by decide,
    world_spatial_acceleration_zero T1 PC1 _ _ _ (by decide)⟩

/-- Claim C6: an inverse-dynamics call in which the caller passes the
applied-force arrays as the same objects used for output (either the
spatial-force pair, the generalized-force pair, or both) produces the
same spatial-acceleration array, spatial-force array and
generalized-force vector as the call with distinct input and output
arrays, because each node's applied contribution is copied before that
node's output entry is overwritten. -/
theorem inverse_dynamics_alias_safe (t : Topology)
    (pc : PositionKinematicsCache) (vc : ℕ → SV) (known_vdot : ℕ → ℚ)
    (aliasF aliasT : Bool) (Fapp : ℕ → SV) (tauApp : ℕ → ℚ)
    (A0 F0 F1 : ℕ → SV) (tau0 tau1 : ℕ → ℚ) (hwf : t.WF) :
    (∀ n, (CalcInverseDynamicsAliased t pc vc known_vdot aliasF aliasT
        Fapp tauApp A0 F0 tau0).A n =
      (CalcInverseDynamics t pc vc known_vdot (some Fapp) (some tauApp)
        A0 F1 tau1).A n) ∧
    (∀ n, n < t.numBodies →
      (CalcInverseDynamicsAliased t pc vc known_vdot aliasF aliasT
        Fapp tauApp A0 F0 tau0).F n =
      (CalcInverseDynamics t pc vc known_vdot (some Fapp) (some tauApp)
        A0 F1 tau1).F n) ∧
    (∀ i, i < t.nv →
      (CalcInverseDynamicsAliased t pc vc known_vdot aliasF aliasT
        Fapp tauApp A0 F0 tau0).tau i =
      (CalcInverseDynamics t pc vc known_vdot (some Fapp) (some tauApp)
        A0 F1 tau1).tau i) := by
  refine ⟨fun n => rfl, fun n hn => ?_, fun i hi => ?_⟩
  · rw [(CIDA_char hwf known_vdot aliasF aliasT Fapp tauApp A0 F0
      tau0).1 n hn,
      (CID_char hwf known_vdot (some Fapp) (some tauApp) A0 F1 tau1).1
        n hn]
    rfl
  · obtain ⟨n, hn, hi1, hi2⟩ := slice_cover hwf hi
    rw [(CIDA_char hwf known_vdot aliasF aliasT Fapp tauApp A0 F0
      tau0).2 n hn i hi1 hi2,
      (CID_char hwf known_vdot (some Fapp) (some tauApp) A0 F1 tau1).2
        n hn i hi1 hi2]
    rfl

/-- Claim C6 witness at the concrete instance, with both arrays
aliased. -/
theorem inverse_dynamics_alias_safe_witness :
    T1.WF ∧
      (CalcInverseDynamicsAliased T1 PC1 (fun _ => 0) (fun _ => 1)
        true true (fun _ => Sum.elim e3 0) (fun _ => 2) (fun _ => 0)
        (fun _ => 0) (fun _ => 0)).tau 0 =
      (CalcInverseDynamics T1 PC1 (fun _ => 0) (fun _ => 1)
        (some (fun _ => Sum.elim e3 0)) (some (fun _ => 2))
        (fun _ => 0) (fun _ => Sum.elim e3 e3) (fun _ => 9)).tau 0 :=
  ⟨by decide,
    (inverse_dynamics_alias_safe T1 PC1 _ _ true true _ _ _ _ _ _ _
      (by decide)).2.2 0 (by decide)⟩

section MassMatrix

variable {t : Topology} {pc : PositionKinematicsCache}

lemma probe_tau_indep (hwf : t.WF) (u : ℕ → ℚ) (A1 F1 : ℕ → SV)
    (tau1 : ℕ → ℚ) :
    ∀ i, i < t.nv →
      (CalcInverseDynamics t pc (fun _ => 0) u none none
        A1 F1 tau1).tau i = tauProbe t pc u i := by
  intro i hi
  obtain ⟨n, hn, hi1, hi2⟩ := slice_cover hwf hi
  rw [(CID_char hwf u none none A1 F1 tau1).2 n hn i hi1 hi2]
  rw [tauProbe,
    (CID_char hwf u none none (fun _ => 0) (fun _ => 0)
      (fun _ => 0)).2 n hn i hi1 hi2]

lemma massInOrder_char (hwf : t.WF) :
    ∀ (order : List ℕ), order.Nodup → ∀ (st : MassState) (i j : ℕ),
      i < t.nv →
      (order.foldl (massProbeStep t pc) st).H i j =
        if j ∈ order then tauProbe t pc (unitVec j) i else st.H i j := by
  intro order
  induction order with
  | nil =>
    intro _ st i j hi
    simp
  | cons j0 rest ih =>
    intro hnd st i j hi
    have hnd1 : rest.Nodup := (List.nodup_cons.mp hnd).2
    have hj0r : j0 ∉ rest := (List.nodup_cons.mp hnd).1
    have hfold : ((j0 :: rest).foldl (massProbeStep t pc) st) =
        rest.foldl (massProbeStep t pc) (massProbeStep t pc st j0) := rfl
    have hstep : (massProbeStep t pc st j0).H i j =
        if j = j0 ∧ i < t.nv then
          (CalcInverseDynamics t pc (fun _ => 0)
            (fun q => if q = j0 then 1 else 0) none none st.A st.F
            (fun _ => 0)).tau i
        else st.H i j := rfl
    rw [hfold, ih hnd1 _ i j hi]
    by_cases hjr : j ∈ rest
    · rw [if_pos hjr, if_pos (List.mem_cons_of_mem j0 hjr)]
    · rw [if_neg hjr, hstep]
      by_cases hjj : j = j0
      · subst hjj
        rw [if_pos ⟨rfl, hi⟩, if_pos (List.mem_cons_self j rest)]
        exact probe_tau_indep hwf (unitVec j) st.A st.F (fun _ => 0) i hi
      · rw [if_neg (by tauto), if_neg (by simp [hjj, hjr])]

end MassMatrix

section SpatialAlgebraSums

lemma sum_dotProduct' {ι : Type} (s : Finset ι) (f : ι → SV) (w : SV) :
    Matrix.dotProduct (∑ k ∈ s, f k) w =
      ∑ k ∈ s, Matrix.dotProduct (f k) w := by
  simp only [Matrix.dotProduct, Finset.sum_apply, Finset.sum_mul]
  exact Finset.sum_comm

lemma dotProduct_sum' {ι : Type} (s : Finset ι) (v : SV) (f : ι → SV) :
    Matrix.dotProduct v (∑ k ∈ s, f k) =
      ∑ k ∈ s, Matrix.dotProduct v (f k) := by
  simp only [Matrix.dotProduct, Finset.sum_apply, Finset.mul_sum]
  exact Finset.sum_comm

lemma mulVec_sum' {ι : Type} (s : Finset ι) (a : SM) (f : ι → SV) :
    a.mulVec (∑ k ∈ s, f k) = ∑ k ∈ s, a.mulVec (f k) := by
  funext r
  rw [Finset.sum_apply]
  simp only [Matrix.mulVec]
  exact dotProduct_sum' s (fun j => a r j) f

lemma phi_adjoint (p : V3) (x y : SV) :
    Matrix.dotProduct ((phiA p).mulVec x) y =
      Matrix.dotProduct x ((phiF p).mulVec y) := by
  rw [Matrix.dotProduct_comm, Matrix.dotProduct_mulVec,
    Matrix.dotProduct_comm, ← Matrix.mulVec_transpose, phiA_transpose]

lemma sym_adjoint {a : SM} (ha : a.transpose = a) (x y : SV) :
    Matrix.dotProduct x (a.mulVec y) =
      Matrix.dotProduct y (a.mulVec x) := by
  rw [Matrix.dotProduct_mulVec, Matrix.dotProduct_comm]
  conv_lhs => rw [← ha]
  rw [Matrix.vecMul_transpose]

lemma dotSV_self_nonneg (y : SV) : 0 ≤ Matrix.dotProduct y y := by
  apply Finset.sum_nonneg
  intro s _
  exact mul_self_nonneg (y s)

lemma dotSV_self_pos {y : SV} (hy : y ≠ 0) :
    0 < Matrix.dotProduct y y := by
  rcases lt_or_eq_of_le (dotSV_self_nonneg y) with h | h
  · exact h
  · exfalso
    exact hy ((Matrix.dotProduct_self_eq_zero).mp h.symm)

end SpatialAlgebraSums

section ZeroVelRecurrences

variable {t : Topology} {pc : PositionKinematicsCache}

lemma Azero_zero (u : ℕ → ℚ) : Azero t pc u 0 = 0 := refBT_zero

lemma Azero_succ (hwf : t.WF) (u : ℕ → ℚ) {n : ℕ} (h1 : 1 ≤ n)
    (hn : n < t.numBodies) :
    Azero t pc u n =
      (phiA (pc.p_PB_W n)).mulVec (Azero t pc u (t.parent n)) +
        mobility t pc u n := by
  simp only [Azero]
  rw [refBT_succ (wf_parent_lt hwf) h1 hn, accNode]
  simp only [angOf_zero, cross3_zero_left, spatialCross_zero,
    sum_elim_zero]
  abel

lemma Fzero_succ (hwf : t.WF) (u : ℕ → ℚ) {n : ℕ} (h1 : 1 ≤ n)
    (hn : n < t.numBodies) :
    Fzero t pc u n =
      (pc.M_B n).mulVec (Azero t pc u n) +
        ∑ c ∈ childs t n,
          (phiF (pc.p_PB_W c)).mulVec (Fzero t pc u c) := by
  simp only [Fzero]
  rw [refTT_eq (wf_parent_lt hwf) hn, idNodeForce, if_neg (by omega)]
  simp [gyroF_zero]

lemma Fzero_world (hwf : t.WF) (u : ℕ → ℚ) :
    Fzero t pc u 0 =
      ∑ c ∈ childs t 0,
        (phiF (pc.p_PB_W c)).mulVec (Fzero t pc u c) := by
  simp only [Fzero]
  rw [refTT_eq (wf_parent_lt hwf) (wf_pos hwf), idNodeForce, if_pos rfl]

lemma mobility_world (hwf : t.WF) (u : ℕ → ℚ) :
    mobility t pc u 0 = 0 := by
  rw [mobility, wf_mc0 hwf]
  simp

lemma sum_R1_eq {N : ℕ} (f : ℕ → ℚ) (h0 : f 0 = 0) :
    ∑ n ∈ (Finset.range N).filter (fun c => 1 ≤ c), f n =
      ∑ n ∈ Finset.range N, f n := by
  apply Finset.sum_filter_of_ne
  intro x _ hfx
  rcases Nat.eq_zero_or_pos x with h | h
  · subst h
    exact absurd h0 hfx
  · exact h

lemma childs_fiber (j : ℕ) :
    ((Finset.range t.numBodies).filter (fun c => 1 ≤ c)).filter
      (fun c => t.parent c = j) = childs t j := by
  ext c
  simp only [childs, Finset.mem_filter, Finset.mem_range]
  tauto

end ZeroVelRecurrences

section Bilinear

variable {t : Topology} {pc : PositionKinematicsCache}

lemma mass_bilinear (hwf : t.WF) (u w : ℕ → ℚ) :
    ∑ n ∈ Finset.range t.numBodies,
      Matrix.dotProduct (mobility t pc u n) (Fzero t pc w n) =
    ∑ n ∈ Finset.range t.numBodies,
      Matrix.dotProduct (Azero t pc u n)
        ((pc.M_B n).mulVec (Azero t pc w n)) := by
  classical
  have hL : ∑ n ∈ Finset.range t.numBodies,
      Matrix.dotProduct (mobility t pc u n) (Fzero t pc w n) =
      ∑ n ∈ (Finset.range t.numBodies).filter (fun c => 1 ≤ c),
        Matrix.dotProduct (mobility t pc u n) (Fzero t pc w n) := by
    refine (sum_R1_eq _ ?_).symm
    rw [mobility_world hwf, Matrix.zero_dotProduct]
  have step1 : ∀ n ∈ (Finset.range t.numBodies).filter (fun c => 1 ≤ c),
      Matrix.dotProduct (mobility t pc u n) (Fzero t pc w n) =
        Matrix.dotProduct (Azero t pc u n) (Fzero t pc w n) -
          Matrix.dotProduct (Azero t pc u (t.parent n))
            ((phiF (pc.p_PB_W n)).mulVec (Fzero t pc w n)) := by
    intro n hn
    rw [Finset.mem_filter, Finset.mem_range] at hn
    have hmob : mobility t pc u n = Azero t pc u n -
        (phiA (pc.p_PB_W n)).mulVec (Azero t pc u (t.parent n)) := by
      rw [Azero_succ hwf u hn.2 hn.1]
      abel
    rw [hmob, Matrix.sub_dotProduct, phi_adjoint]
  have hmaps : ∀ c ∈ (Finset.range t.numBodies).filter (fun c => 1 ≤ c),
      t.parent c ∈ Finset.range t.numBodies := by
    intro c hc
    rw [Finset.mem_filter, Finset.mem_range] at hc
    have := wf_parent_lt hwf c hc.1 hc.2
    exact Finset.mem_range.mpr (by omega)
  have step3 : ∑ c ∈ (Finset.range t.numBodies).filter (fun c => 1 ≤ c),
      Matrix.dotProduct (Azero t pc u (t.parent c))
        ((phiF (pc.p_PB_W c)).mulVec (Fzero t pc w c)) =
      ∑ j ∈ Finset.range t.numBodies,
        Matrix.dotProduct (Azero t pc u j)
          (∑ c ∈ childs t j,
            (phiF (pc.p_PB_W c)).mulVec (Fzero t pc w c)) := by
    rw [← Finset.sum_fiberwise_of_maps_to hmaps
      (fun c => Matrix.dotProduct (Azero t pc u (t.parent c))
        ((phiF (pc.p_PB_W c)).mulVec (Fzero t pc w c)))]
    apply Finset.sum_congr rfl
    intro j _
    have hfib : ∀ c ∈ ((Finset.range t.numBodies).filter
        (fun c => 1 ≤ c)).filter (fun c => t.parent c = j),
        Matrix.dotProduct (Azero t pc u (t.parent c))
          ((phiF (pc.p_PB_W c)).mulVec (Fzero t pc w c)) =
        Matrix.dotProduct (Azero t pc u j)
          ((phiF (pc.p_PB_W c)).mulVec (Fzero t pc w c)) := by
      intro c hc
      rw [(Finset.mem_filter.mp hc).2]
    rw [Finset.sum_congr rfl hfib, childs_fiber j, dotProduct_sum']
  have step4 : ∀ j ∈ Finset.range t.numBodies,
      Matrix.dotProduct (Azero t pc u j)
        (∑ c ∈ childs t j,
          (phiF (pc.p_PB_W c)).mulVec (Fzero t pc w c)) =
      Matrix.dotProduct (Azero t pc u j) (Fzero t pc w j) -
        Matrix.dotProduct (Azero t pc u j)
          ((pc.M_B j).mulVec (Azero t pc w j)) := by
    intro j hj
    rw [Finset.mem_range] at hj
    rcases Nat.eq_zero_or_pos j with h0 | h1
    · subst h0
      rw [Azero_zero]
      simp [Matrix.zero_dotProduct]
    · have hcs : (∑ c ∈ childs t j,
          (phiF (pc.p_PB_W c)).mulVec (Fzero t pc w c)) =
          Fzero t pc w j - (pc.M_B j).mulVec (Azero t pc w j) := by
        rw [Fzero_succ hwf w h1 hj]
        abel
      rw [hcs, Matrix.dotProduct_sub]
  have hAF0 : Matrix.dotProduct (Azero t pc u 0) (Fzero t pc w 0) = 0 := by
    rw [Azero_zero, Matrix.zero_dotProduct]
  have hAM0 : Matrix.dotProduct (Azero t pc u 0)
      ((pc.M_B 0).mulVec (Azero t pc w 0)) = 0 := by
    rw [Azero_zero, Matrix.zero_dotProduct]
  rw [hL, Finset.sum_congr rfl step1, Finset.sum_sub_distrib, step3,
    Finset.sum_congr rfl step4, Finset.sum_sub_distrib,
    ← sum_R1_eq (fun n => Matrix.dotProduct (Azero t pc u n)
      (Fzero t pc w n)) hAF0,
    ← sum_R1_eq (fun n => Matrix.dotProduct (Azero t pc u n)
      ((pc.M_B n).mulVec (Azero t pc w n))) hAM0]
  ring

end Bilinear

section ProbeSum

variable {t : Topology} {pc : PositionKinematicsCache}

lemma tauProbe_slice (hwf : t.WF) (u : ℕ → ℚ) {n : ℕ}
    (hn : n < t.numBodies) {i : ℕ} (hi1 : t.vStart n ≤ i)
    (hi2 : i < t.vStart n + t.mCount n) :
    tauProbe t pc u i =
      Matrix.dotProduct (pc.H_PB_W n (i - t.vStart n))
        (Fzero t pc u n) := by
  have h := (@CID_char t pc (fun _ => 0) hwf u none none
    (fun _ => 0) (fun _ => 0) (fun _ => 0)).2 n hn i hi1 hi2
  rw [tauProbe, h]
  have h2 : refTT t pc (fun _ => 0)
      (ArefOf t pc (fun _ => 0) u) (fappOf none) n = Fzero t pc u n := rfl
  rw [h2]
  simp [tauAppOf]

lemma tauProbe_dot (hwf : t.WF) (u w : ℕ → ℚ) :
    ∑ i ∈ Finset.range t.nv, u i * tauProbe t pc w i =
      ∑ n ∈ Finset.range t.numBodies,
        Matrix.dotProduct (Azero t pc u n)
          ((pc.M_B n).mulVec (Azero t pc w n)) := by
  classical
  have hbi : Finset.range t.nv =
      (Finset.range t.numBodies).biUnion
        (fun n => Finset.Ico (t.vStart n) (t.vStart n + t.mCount n)) := by
    ext i
    simp only [Finset.mem_range, Finset.mem_biUnion, Finset.mem_Ico]
    constructor
    · intro hi
      obtain ⟨n, hn, h1, h2⟩ := slice_cover hwf hi
      exact ⟨n, hn, h1, h2⟩
    · rintro ⟨n, hn, h1, h2⟩
      have := slice_ub hwf hn
      omega
  have hdisj : Set.PairwiseDisjoint ↑(Finset.range t.numBodies)
      (fun n => Finset.Ico (t.vStart n) (t.vStart n + t.mCount n)) := by
    intro a ha b hb hab
    refine Finset.disjoint_left.mpr ?_
    intro i hia hib
    rw [Finset.mem_coe, Finset.mem_range] at ha hb
    rw [Finset.mem_Ico] at hia hib
    exact slice_disjoint hwf ha hb hab hia hib
  have hinner : ∀ n ∈ Finset.range t.numBodies,
      (∑ i ∈ Finset.Ico (t.vStart n) (t.vStart n + t.mCount n),
        u i * tauProbe t pc w i) =
        Matrix.dotProduct (mobility t pc u n) (Fzero t pc w n) := by
    intro n hn
    rw [Finset.mem_range] at hn
    rw [Finset.sum_Ico_eq_sum_range]
    have hsub : t.vStart n + t.mCount n - t.vStart n = t.mCount n := by
      omega
    rw [hsub]
    have hterm : ∀ k ∈ Finset.range (t.mCount n),
        u (t.vStart n + k) * tauProbe t pc w (t.vStart n + k) =
          u (t.vStart n + k) *
            Matrix.dotProduct (pc.H_PB_W n k) (Fzero t pc w n) := by
      intro k hk
      rw [Finset.mem_range] at hk
      rw [tauProbe_slice hwf w hn (Nat.le_add_right _ _) (by omega),
        Nat.add_sub_cancel_left]
    rw [Finset.sum_congr rfl hterm, mobility, sum_dotProduct']
    apply Finset.sum_congr rfl
    intro k _
    rw [Matrix.smul_dotProduct, smul_eq_mul]
  rw [hbi, Finset.sum_biUnion hdisj, Finset.sum_congr rfl hinner]
  exact mass_bilinear hwf u w

lemma unit_row {i : ℕ} (hi : i < t.nv) (f : ℕ → ℚ) :
    ∑ q ∈ Finset.range t.nv, unitVec i q * f q = f i := by
  simp only [unitVec, ite_mul, one_mul, zero_mul]
  rw [Finset.sum_ite_eq' (Finset.range t.nv) i f,
    if_pos (Finset.mem_range.mpr hi)]

lemma Azero_decomp (hwf : t.WF) (x : ℕ → ℚ) :
    ∀ n, n < t.numBodies →
      ∑ j ∈ Finset.range t.nv, x j • Azero t pc (unitVec j) n =
        Azero t pc x n := by
  intro n
  induction n using Nat.strong_induction_on with
  | _ n ih =>
    intro hn
    rcases Nat.eq_zero_or_pos n with h0 | h1
    · subst h0
      simp [Azero_zero]
    · have hp := wf_parent_lt hwf n hn h1
      have hAj : ∀ j ∈ Finset.range t.nv,
          x j • Azero t pc (unitVec j) n =
            x j • ((phiA (pc.p_PB_W n)).mulVec
              (Azero t pc (unitVec j) (t.parent n)) +
                mobility t pc (unitVec j) n) := by
        intro j _
        rw [Azero_succ hwf (unitVec j) h1 hn]
      rw [Finset.sum_congr rfl hAj]
      simp only [smul_add]
      rw [Finset.sum_add_distrib]
      have hfirst : ∑ j ∈ Finset.range t.nv,
          x j • (phiA (pc.p_PB_W n)).mulVec
            (Azero t pc (unitVec j) (t.parent n)) =
          (phiA (pc.p_PB_W n)).mulVec (Azero t pc x (t.parent n)) := by
        have hsw : ∀ j ∈ Finset.range t.nv,
            x j • (phiA (pc.p_PB_W n)).mulVec
              (Azero t pc (unitVec j) (t.parent n)) =
            (phiA (pc.p_PB_W n)).mulVec
              (x j • Azero t pc (unitVec j) (t.parent n)) := by
          intro j _
          exact (Matrix.mulVec_smul _ _ _).symm
        rw [Finset.sum_congr rfl hsw, ← mulVec_sum',
          ih (t.parent n) hp (by omega)]
      have hsecond : ∑ j ∈ Finset.range t.nv,
          x j • mobility t pc (unitVec j) n = mobility t pc x n := by
        simp only [mobility, Finset.smul_sum]
        rw [Finset.sum_comm]
        apply Finset.sum_congr rfl
        intro k hk
        rw [Finset.mem_range] at hk
        have hform : ∀ j ∈ Finset.range t.nv,
            x j • unitVec j (t.vStart n + k) • pc.H_PB_W n k =
              (if t.vStart n + k = j then x j else 0) •
                pc.H_PB_W n k := by
          intro j _
          by_cases h : t.vStart n + k = j
          · simp [unitVec, h]
          · simp [unitVec, h]
        rw [Finset.sum_congr rfl hform, ← Finset.sum_smul,
          Finset.sum_ite_eq (Finset.range t.nv) (t.vStart n + k) x]
        have hin : t.vStart n + k < t.nv := by
          have := slice_ub hwf hn
          omega
        rw [if_pos (Finset.mem_range.mpr hin)]
      rw [hfirst, hsecond, ← Azero_succ hwf x h1 hn]

lemma mass_entry (hwf : t.WF) (A0 F0 : ℕ → SV) (H0 : ℕ → ℕ → ℚ)
    {i j : ℕ} (hi : i < t.nv) (hj : j < t.nv) :
    DoCalcMassMatrixViaInverseDynamics t pc A0 F0 H0 i j =
      tauProbe t pc (unitVec j) i := by
  rw [DoCalcMassMatrixViaInverseDynamics, DoCalcMassMatrixInOrder,
    massInOrder_char hwf (List.range t.nv) (List.nodup_range t.nv) _ i j
      hi,
    if_pos (List.mem_range.mpr hj)]

end ProbeSum

/-- Claim C1: `DoCalcMassMatrixViaInverseDynamics` fills column `j` of
the mass matrix, for each `j` below the total velocity count, with the
generalized-force vector obtained from one inverse-dynamics probe whose
generalized-acceleration vector is the `j`-th unit basis vector, run with
the zero velocity cache and no applied forces (for any contents of either
call's scratch buffers). -/
theorem mass_matrix_column_is_unit_probe (t : Topology)
    (pc : PositionKinematicsCache) (A0 F0 A1 F1 : ℕ → SV)
    (H0 : ℕ → ℕ → ℚ) (tau1 : ℕ → ℚ) (hwf : t.WF) (j : ℕ)
    (hj : j < t.nv) :
    ∀ i, i < t.nv →
      DoCalcMassMatrixViaInverseDynamics t pc A0 F0 H0 i j =
        (CalcInverseDynamics t pc (fun _ => 0) (unitVec j) none none
          A1 F1 tau1).tau i := by
  intro i hi
  rw [DoCalcMassMatrixViaInverseDynamics, DoCalcMassMatrixInOrder,
    massInOrder_char hwf (List.range t.nv) (List.nodup_range t.nv) _ i j hi,
    if_pos (List.mem_range.mpr hj),
    probe_tau_indep hwf (unitVec j) A1 F1 tau1 i hi]

/-- Claim C1 witness at the concrete instance. -/
theorem mass_matrix_column_is_unit_probe_witness :
    T1.WF ∧ (0 : ℕ) < T1.nv ∧
      DoCalcMassMatrixViaInverseDynamics T1 PC1 (fun _ => 0)
        (fun _ => 0) (fun _ _ => 3) 0 0 =
        (CalcInverseDynamics T1 PC1 (fun _ => 0) (unitVec 0) none none
          (fun _ => Sum.elim e3 0) (fun _ => 0) (fun _ => 4)).tau 0 :=
  ⟨by decide, by decide,
    mass_matrix_column_is_unit_probe T1 PC1 _ _ _ _ _ _ (by decide) 0
      (by decide) 0 (by decide)⟩

/-- Claim C2: for every valid configuration, the mass matrix produced by
unit-impulse probing (`DoCalcMassMatrixViaInverseDynamics`) equals its own
transpose (exactly, in this exact-arithmetic model, hence within any
numerical tolerance), and is positive definite for a physically valid
(symmetric positive-definite body inertias) and non-degenerate
mechanism. -/
theorem mass_matrix_symmetric_posdef (t : Topology)
    (pc : PositionKinematicsCache) (A0 F0 : ℕ → SV) (H0 : ℕ → ℕ → ℚ)
    (hwf : t.WF) (hphys : PhysicallyValid t pc)
    (hnd : Nondegenerate t pc) :
    (∀ i j, i < t.nv → j < t.nv →
      DoCalcMassMatrixViaInverseDynamics t pc A0 F0 H0 i j =
        DoCalcMassMatrixViaInverseDynamics t pc A0 F0 H0 j i) ∧
    (∀ x : ℕ → ℚ, (∃ i, i < t.nv ∧ x i ≠ 0) →
      0 < quadForm t (DoCalcMassMatrixViaInverseDynamics t pc A0 F0 H0)
        x) := by
  have hsymS : ∀ (u w : ℕ → ℚ), ∀ n ∈ Finset.range t.numBodies,
      Matrix.dotProduct (Azero t pc u n)
        ((pc.M_B n).mulVec (Azero t pc w n)) =
      Matrix.dotProduct (Azero t pc w n)
        ((pc.M_B n).mulVec (Azero t pc u n)) := by
    intro u w n hn
    rw [Finset.mem_range] at hn
    rcases Nat.eq_zero_or_pos n with h0 | h1
    · subst h0
      rw [Azero_zero, Azero_zero]
    · exact sym_adjoint (hphys n hn h1).1 _ _
  constructor
  · intro i j hi hj
    rw [mass_entry hwf A0 F0 H0 hi hj, mass_entry hwf A0 F0 H0 hj hi]
    calc tauProbe t pc (unitVec j) i
        = ∑ q ∈ Finset.range t.nv,
            unitVec i q * tauProbe t pc (unitVec j) q :=
          (unit_row hi _).symm
      _ = ∑ n ∈ Finset.range t.numBodies,
            Matrix.dotProduct (Azero t pc (unitVec i) n)
              ((pc.M_B n).mulVec (Azero t pc (unitVec j) n)) :=
          tauProbe_dot hwf _ _
      _ = ∑ n ∈ Finset.range t.numBodies,
            Matrix.dotProduct (Azero t pc (unitVec j) n)
              ((pc.M_B n).mulVec (Azero t pc (unitVec i) n)) :=
          Finset.sum_congr rfl (hsymS _ _)
      _ = ∑ q ∈ Finset.range t.nv,
            unitVec j q * tauProbe t pc (unitVec i) q :=
          (tauProbe_dot hwf _ _).symm
      _ = tauProbe t pc (unitVec i) j := unit_row hj _
  · intro x hx
    have hquad : quadForm t
        (DoCalcMassMatrixViaInverseDynamics t pc A0 F0 H0) x =
        ∑ n ∈ Finset.range t.numBodies,
          Matrix.dotProduct (Azero t pc x n)
            ((pc.M_B n).mulVec (Azero t pc x n)) := by
      rw [quadForm]
      have he1 : ∀ i ∈ Finset.range t.nv,
          (∑ j ∈ Finset.range t.nv,
            x i * DoCalcMassMatrixViaInverseDynamics t pc A0 F0 H0 i j *
              x j) =
          ∑ j ∈ Finset.range t.nv,
            x i * tauProbe t pc (unitVec j) i * x j := by
        intro i hi2
        apply Finset.sum_congr rfl
        intro j hj2
        rw [mass_entry hwf A0 F0 H0 (Finset.mem_range.mp hi2)
          (Finset.mem_range.mp hj2)]
      rw [Finset.sum_congr rfl he1, Finset.sum_comm]
      have he2 : ∀ j ∈ Finset.range t.nv,
          (∑ i ∈ Finset.range t.nv,
            x i * tauProbe t pc (unitVec j) i * x j) =
          (∑ n ∈ Finset.range t.numBodies,
            Matrix.dotProduct (Azero t pc x n)
              ((pc.M_B n).mulVec (Azero t pc (unitVec j) n))) * x j := by
        intro j _
        rw [← Finset.sum_mul, tauProbe_dot hwf x (unitVec j)]
      rw [Finset.sum_congr rfl he2]
      have he3 : ∀ j ∈ Finset.range t.nv,
          (∑ n ∈ Finset.range t.numBodies,
            Matrix.dotProduct (Azero t pc x n)
              ((pc.M_B n).mulVec (Azero t pc (unitVec j) n))) * x j =
          ∑ n ∈ Finset.range t.numBodies,
            Matrix.dotProduct (Azero t pc x n)
              (x j • (pc.M_B n).mulVec (Azero t pc (unitVec j) n)) := by
        intro j _
        rw [Finset.sum_mul]
        apply Finset.sum_congr rfl
        intro n _
        rw [Matrix.dotProduct_smul, smul_eq_mul, mul_comm]
      rw [Finset.sum_congr rfl he3, Finset.sum_comm]
      apply Finset.sum_congr rfl
      intro n hn2
      rw [← dotProduct_sum']
      congr 1
      have he4 : ∀ j ∈ Finset.range t.nv,
          x j • (pc.M_B n).mulVec (Azero t pc (unitVec j) n) =
            (pc.M_B n).mulVec (x j • Azero t pc (unitVec j) n) := by
        intro j _
        exact (Matrix.mulVec_smul _ _ _).symm
      rw [Finset.sum_congr rfl he4, ← mulVec_sum',
        Azero_decomp hwf x n (Finset.mem_range.mp hn2)]
    rw [hquad]
    apply Finset.sum_pos'
    · intro n hn2
      rw [Finset.mem_range] at hn2
      rcases Nat.eq_zero_or_pos n with h0 | h1
      · subst h0
        rw [Azero_zero, Matrix.zero_dotProduct]
      · by_cases hA : Azero t pc x n = 0
        · rw [hA, Matrix.zero_dotProduct]
        · exact le_of_lt ((hphys n hn2 h1).2 _ hA)
    · obtain ⟨n, h1, hn, hA⟩ := hnd x hx
      exact ⟨n, Finset.mem_range.mpr hn, (hphys n hn h1).2 _ hA⟩

/-- Claim C2 witness: the concrete one-body instance is physically valid
and non-degenerate, and the theorem applies to it. -/
theorem mass_matrix_symmetric_posdef_witness :
    T1.WF ∧ PhysicallyValid T1 PC1 ∧ Nondegenerate T1 PC1 ∧
      (∀ i j, i < T1.nv → j < T1.nv →
        DoCalcMassMatrixViaInverseDynamics T1 PC1 (fun _ => 0)
          (fun _ => 0) (fun _ _ => 0) i j =
        DoCalcMassMatrixViaInverseDynamics T1 PC1 (fun _ => 0)
          (fun _ => 0) (fun _ _ => 0) j i) ∧
      (∀ x : ℕ → ℚ, (∃ i, i < T1.nv ∧ x i ≠ 0) →
        0 < quadForm T1 (DoCalcMassMatrixViaInverseDynamics T1 PC1
          (fun _ => 0) (fun _ => 0) (fun _ _ => 0)) x) := by
  have hwf : T1.WF := by decide
  have hphys : PhysicallyValid T1 PC1 := by
    intro n hn h1
    constructor
    · exact Matrix.transpose_one
    · intro y hy
      rw [show PC1.M_B n = 1 from rfl, Matrix.one_mulVec]
      exact dotSV_self_pos hy
  have hnd : Nondegenerate T1 PC1 := by
    intro u hu
    obtain ⟨i, hi, hui⟩ := hu
    have hi0 : i = 0 := by
      have h2 : i < 1 := hi
      omega
    subst hi0
    refine ⟨1, le_refl 1, by decide, ?_⟩
    intro hz
    have h1 : Azero T1 PC1 u 1 = u 0 • Sum.elim e3 0 := by
      rw [Azero_succ hwf u (le_refl 1) (by decide),
        show T1.parent 1 = 0 from rfl, Azero_zero, Matrix.mulVec_zero,
        zero_add, mobility, show T1.mCount 1 = 1 from rfl,
        show T1.vStart 1 = 0 from rfl, Finset.sum_range_one]
      rfl
    rw [h1] at hz
    have h4 := congrFun hz (Sum.inl 2)
    have h5 : u 0 = 0 := by simpa [e3] using h4
    exact hui h5
  exact ⟨hwf, hphys, hnd,
    (mass_matrix_symmetric_posdef T1 PC1 (fun _ => 0) (fun _ => 0)
      (fun _ _ => 0) hwf hphys hnd).1,
    (mass_matrix_symmetric_posdef T1 PC1 (fun _ => 0) (fun _ => 0)
      (fun _ _ => 0) hwf hphys hnd).2⟩

/-- Claim C7: for every configuration, the mass-matrix column produced by
the `j`-th unit-impulse probe depends only on the configuration and `j`:
running the probe loop over any permutation of the column indices yields
the same matrix entries as the ascending order used by
`DoCalcMassMatrixViaInverseDynamics`, since each probe's output is
independent of the prior probes' outputs left in the shared scratch
buffers. -/
theorem mass_matrix_probe_order_independent (t : Topology)
    (pc : PositionKinematicsCache) (A0 F0 A1 F1 : ℕ → SV)
    (H0 H1 : ℕ → ℕ → ℚ) (order : List ℕ) (hwf : t.WF)
    (hperm : order.Perm (List.range t.nv)) :
    ∀ i j, i < t.nv → j < t.nv →
      DoCalcMassMatrixInOrder t pc A0 F0 H0 order i j =
        DoCalcMassMatrixViaInverseDynamics t pc A1 F1 H1 i j := by
  intro i j hi hj
  have hnd : order.Nodup := hperm.nodup_iff.mpr (List.nodup_range t.nv)
  rw [DoCalcMassMatrixInOrder,
    massInOrder_char hwf order hnd _ i j hi,
    if_pos (hperm.mem_iff.mpr (List.mem_range.mpr hj)),
    DoCalcMassMatrixViaInverseDynamics, DoCalcMassMatrixInOrder,
    massInOrder_char hwf (List.range t.nv) (List.nodup_range t.nv) _ i j hi,
    if_pos (List.mem_range.mpr hj)]

/-- Claim C7 witness at the concrete two-mobility chain, probing the
columns in descending order. -/
theorem mass_matrix_probe_order_independent_witness :
    T2.WF ∧ ([1, 0] : List ℕ).Perm (List.range T2.nv) ∧
      DoCalcMassMatrixInOrder T2 PC1 (fun _ => 0) (fun _ => 0)
        (fun _ _ => 3) [1, 0] 0 1 =
        DoCalcMassMatrixViaInverseDynamics T2 PC1
          (fun _ => Sum.elim e3 e3) (fun _ => 0) (fun _ _ => 8) 0 1 :=
  ⟨by decide, by decide,
    mass_matrix_probe_order_independent T2 PC1 _ _ _ _ _ _ [1, 0]
      (by decide) (by decide) 0 1 (by decide) (by decide)⟩

/-- Claim C8 counterexample: a size-precondition violation of
`CalcPointsPositions` (an input point matrix with two rows instead of
three) surfaces as a catchable exception, not as a fatal assertion, so
precondition violations are NOT unconditionally fatal assertions. -/
theorem points_positions_throws_catchable_counterexample :
    CalcPointsPositions M1 CTX1 worldFrame ⟨2, 1, fun _ _ => 0⟩
      worldFrame (some ⟨3, 1, fun _ _ => 0⟩) =
      .error .catchableException ∧
    Err.catchableException ≠ Err.fatalAssertion := by
  constructor
  · rfl
  · decide

/-- Claim C8 (amended): a caller-side precondition violation (mismatched
buffer size, null output pointer, wrong generalized-coordinate vector
length) is always rejected before any computation and never silently
tolerated; the checks of `CalcInverseDynamics` are fatal assertions
(`DRAKE_DEMAND`), while those of `CalcPointsPositions` and
`CalcPointsGeometricJacobianExpressedInWorld` are thrown, catchable
exceptions (`DRAKE_THROW_UNLESS`). -/
theorem precondition_violations_always_rejected (t : Topology)
    (pc : PositionKinematicsCache) (vc : ℕ → SV) (known_vdot : List ℚ)
    (fapp : List SV) (tauapp : List ℚ) (abuf fbuf : Option (List SV))
    (taubuf : List ℚ) (m : MultibodyTreeModel) (ctx : Context)
    (frame_B frame_A : Frame) (p_BQi : MatB) (p_AQi : Option MatB)
    (p_WQi Jv : Option MatB) :
    (known_vdot.length ≠ t.nv →
      CalcInverseDynamicsChecked t pc vc known_vdot fapp tauapp abuf
        fbuf taubuf = .error .fatalAssertion) ∧
    (abuf = none →
      CalcInverseDynamicsChecked t pc vc known_vdot fapp tauapp abuf
        fbuf taubuf = .error .fatalAssertion) ∧
    (p_BQi.rows ≠ 3 →
      CalcPointsPositions m ctx frame_B p_BQi frame_A p_AQi =
        .error .catchableException) ∧
    (p_AQi = none →
      CalcPointsPositions m ctx frame_B p_BQi frame_A p_AQi =
        .error .catchableException) ∧
    (p_BQi.rows ≠ 3 →
      CalcPointsGeometricJacobianExpressedInWorld m ctx frame_B p_BQi
        p_WQi Jv = .error .catchableException) ∧
    (Jv = none →
      CalcPointsGeometricJacobianExpressedInWorld m ctx frame_B p_BQi
        p_WQi Jv = .error .catchableException) := by
  refine ⟨?_, ?_, ?_, ?_, ?_, ?_⟩
  · intro h
    simp only [CalcInverseDynamicsChecked.eq_def, if_pos h]
  · intro h
    subst h
    simp only [CalcInverseDynamicsChecked.eq_def]
    split_ifs <;> rfl
  · intro h
    simp only [CalcPointsPositions.eq_def, if_pos h]
  · intro h
    subst h
    simp only [CalcPointsPositions.eq_def]
    split_ifs <;> rfl
  · intro h
    simp only [CalcPointsGeometricJacobianExpressedInWorld.eq_def,
      if_pos h]
  · intro h
    subst h
    rcases p_WQi with _ | pw
    · simp only [CalcPointsGeometricJacobianExpressedInWorld.eq_def]
      split_ifs <;> rfl
    · simp only [CalcPointsGeometricJacobianExpressedInWorld.eq_def]
      split_ifs <;> rfl

/-- Claim C8 witness for the amended claim at concrete inputs. -/
theorem precondition_violations_always_rejected_witness :
    ((([] : List ℚ).length ≠ T1.nv) ∧
      CalcInverseDynamicsChecked T1 PC1 (fun _ => 0) [] [] [] none none
        [] = .error .fatalAssertion) ∧
    ((⟨2, 1, fun _ _ => 0⟩ : MatB).rows ≠ 3 ∧
      CalcPointsPositions M1 CTX1 worldFrame ⟨2, 1, fun _ _ => 0⟩
        worldFrame none = .error .catchableException) :=
  ⟨⟨by decide,
    (precondition_violations_always_rejected T1 PC1 (fun _ => 0) [] []
      [] none none [] M1 CTX1 worldFrame worldFrame
      ⟨2, 1, fun _ _ => 0⟩ none none none).1 (by decide)⟩,
   ⟨by decide,
    (precondition_violations_always_rejected T1 PC1 (fun _ => 0) [] []
      [] none none [] M1 CTX1 worldFrame worldFrame
      ⟨2, 1, fun _ _ => 0⟩ none none none).2.2.1 (by decide)⟩⟩

section FillLemmas

lemma foldl_set_length {α : Type} (f : ℕ → α) :
    ∀ (ms : List ℕ) (l : List α),
      (ms.foldl (fun acc q => acc.set q (f q)) l).length = l.length := by
  intro ms
  induction ms with
  | nil =>
    intro l
    rfl
  | cons q rest ih =>
    intro l
    have hfold : ((q :: rest).foldl (fun acc r => acc.set r (f r)) l) =
        rest.foldl (fun acc r => acc.set r (f r)) (l.set q (f q)) := rfl
    rw [hfold, ih, List.length_set]

lemma foldl_set_getD {α : Type} (f : ℕ → α) (d : α) :
    ∀ (ms : List ℕ) (l : List α) (b : ℕ), b < l.length →
      (ms.foldl (fun acc q => acc.set q (f q)) l).getD b d =
        if b ∈ ms then f b else l.getD b d := by
  intro ms
  induction ms with
  | nil =>
    intro l b _
    simp
  | cons q rest ih =>
    intro l b hb
    have hfold : ((q :: rest).foldl (fun acc r => acc.set r (f r)) l) =
        rest.foldl (fun acc r => acc.set r (f r)) (l.set q (f q)) := rfl
    rw [hfold, ih (l.set q (f q)) b (by rw [List.length_set]; exact hb)]
    by_cases hbr : b ∈ rest
    · rw [if_pos hbr, if_pos (List.mem_cons_of_mem q hbr)]
    · rw [if_neg hbr]
      by_cases hbq : b = q
      · subst hbq
        rw [if_pos (List.mem_cons_self b rest),
          List.getD_eq_getElem?_getD]
        simp [List.getElem?_set_self', hb]
      · rw [if_neg (by simp [hbq, hbr]), List.getD_eq_getElem?_getD,
          List.getElem?_set_ne (fun hc => hbq hc.symm),
          ← List.getD_eq_getElem?_getD]

lemma resizeList_length {α : Type} (l : List α) (n : ℕ) (pad : α) :
    (resizeList l n pad).length = n := by
  rw [resizeList, List.length_append, List.length_take,
    List.length_replicate]
  omega

end FillLemmas

/-- Claim C9: when the caller passes `CalcAllBodyPosesInWorld` or
`CalcAllBodySpatialVelocitiesInWorld` a non-null output vector whose size
differs from the number of bodies, the operation does not fail: it
resizes the vector to the number of bodies and fills every entry from the
corresponding kinematics cache, in ascending body-index order including
the world at index 0. -/
theorem all_body_poses_velocities_resize_fill (m : MultibodyTreeModel)
    (ctx : Context) (buf : List Iso) (bufV : List SV)
    (hb : buf.length ≠ m.top.numBodies)
    (hbv : bufV.length ≠ m.top.numBodies) :
    (∃ out, CalcAllBodyPosesInWorld m ctx (some buf) = .ok out ∧
      out.length = m.top.numBodies ∧
      ∀ b, b < m.top.numBodies →
        out.getD b isoId =
          (EvalPositionKinematics ctx).X_WB (m.bodyNode b)) ∧
    (∃ outV, CalcAllBodySpatialVelocitiesInWorld m ctx (some bufV) =
        .ok outV ∧
      outV.length = m.top.numBodies ∧
      ∀ b, b < m.top.numBodies →
        outV.getD b 0 = EvalVelocityKinematics m.top ctx (m.bodyNode b)) := by
  constructor
  · have hres : CalcAllBodyPosesInWorld m ctx (some buf) =
        .ok ((List.range m.top.numBodies).foldl
          (fun l b => l.set b
            ((EvalPositionKinematics ctx).X_WB (m.bodyNode b)))
          (resizeList buf m.top.numBodies isoId)) := by
      simp only [CalcAllBodyPosesInWorld.eq_def, if_pos hb]
    refine ⟨_, hres, ?_, ?_⟩
    · rw [foldl_set_length, resizeList_length]
    · intro b hbN
      rw [foldl_set_getD _ _ _ _ b
          (by rw [resizeList_length]; exact hbN),
        if_pos (List.mem_range.mpr hbN)]
  · have hres : CalcAllBodySpatialVelocitiesInWorld m ctx (some bufV) =
        .ok ((List.range m.top.numBodies).foldl
          (fun l b => l.set b (EvalVelocityKinematics m.top ctx
            (m.bodyNode b)))
          (resizeList bufV m.top.numBodies 0)) := by
      simp only [CalcAllBodySpatialVelocitiesInWorld.eq_def, if_pos hbv]
    refine ⟨_, hres, ?_, ?_⟩
    · rw [foldl_set_length, resizeList_length]
    · intro b hbN
      rw [foldl_set_getD _ _ _ _ b
          (by rw [resizeList_length]; exact hbN),
        if_pos (List.mem_range.mpr hbN)]

/-- Claim C9 witness at the concrete instance, with an empty (wrongly
sized) output buffer. -/
theorem all_body_poses_velocities_resize_fill_witness :
    (([] : List Iso).length ≠ M1.top.numBodies) ∧
    (∃ out, CalcAllBodyPosesInWorld M1 CTX1 (some []) = .ok out ∧
      out.length = M1.top.numBodies ∧
      ∀ b, b < M1.top.numBodies →
        out.getD b isoId =
          (EvalPositionKinematics CTX1).X_WB (M1.bodyNode b)) :=
  ⟨by decide,
    (all_body_poses_velocities_resize_fill M1 CTX1 [] [] (by decide)
      (by decide)).1⟩

/-- Claim C10: for every finalized tree with no registered gravity field,
`CalcGravityGeneralizedForces` returns the zero vector of length equal to
the number of generalized velocities, for every context. -/
theorem gravity_forces_zero_without_field (m : MultibodyTreeModel)
    (ctx : Context) (hfin : m.finalized = true)
    (hg : m.gravity_field = none) :
    ∃ l, CalcGravityGeneralizedForces m ctx = .ok l ∧
      l.length = m.top.nv ∧ ∀ q ∈ l, q = 0 := by
  refine ⟨List.replicate m.top.nv 0, ?_, ?_, ?_⟩
  · simp only [CalcGravityGeneralizedForces.eq_def, hfin, hg]
    rfl
  · exact List.length_replicate m.top.nv 0
  · intro q hq
    exact List.eq_of_mem_replicate hq

/-- Claim C10 witness at the concrete instance. -/
theorem gravity_forces_zero_without_field_witness :
    M1.finalized = true ∧ M1.gravity_field = none ∧
      (∃ l, CalcGravityGeneralizedForces M1 CTX1 = .ok l ∧
        l.length = M1.top.nv ∧ ∀ q ∈ l, q = 0) :=
  ⟨rfl, rfl, gravity_forces_zero_without_field M1 CTX1 rfl rfl⟩

end Drake







